import Mathlib

/-!
Verification development for the portage dependency engine
(`lib/portage/dep/__init__.py` and `lib/portage/dep/atom.py`).

The Python sources are shallowly embedded: parsed atoms and candidate
package records become Lean structures, the stateful token-stream
reducers become explicit folds over token lists, and raised exceptions
become `Except`/`Option` results.  The external version-comparison
primitive `vercmp` (from `portage.versions`, an opaque total-order
collaborator of this engine) is passed in as a function parameter
`vcmp : String → String → Option Int`, mirroring its Python contract of
returning a sign (or `None` when the comparison does not apply).

Python `str` values are sequences of characters; the helpers below
reimplement the exact Python string primitives the sources use
(`split()`, `lstrip`, `startswith`, slicing, `replace(old, new, 1)`)
over `List Char` so that every definition evaluates inside the kernel.
-/

namespace PortageDep

/-- Python `str.split()` with no separator: split on whitespace runs and
drop empty pieces.  Auxiliary worker carrying the current (reversed)
word accumulator. -/
def pySplitAux : List Char → List Char → List String
  | [], acc => if acc.isEmpty then [] else [⟨acc.reverse⟩]
  | c :: rest, acc =>
    if c.isWhitespace then
      if acc.isEmpty then pySplitAux rest []
      else (⟨acc.reverse⟩ : String) :: pySplitAux rest []
    else pySplitAux rest (c :: acc)

/-- Python `str.split()` with no separator. -/
def pySplit (s : String) : List String := pySplitAux s.data []

/-- Python `a.startswith(b)`. -/
def pyStartsWith (s pre : String) : Bool := pre.data.isPrefixOf s.data

/-- Python `a.endswith(b)`. -/
def pyEndsWith (s suf : String) : Bool := suf.data.isSuffixOf s.data

/-- Python `s[-1]` on a nonempty string (`'?'`-operator tests and the
glob boundary check only apply it to nonempty strings); returns a dummy
character on the unreachable empty case. -/
def pyLastChar (s : String) : Char :=
  match s.data.getLast? with
  | some c => c
  | none => ' '

/-- Python `s[:-1]`. -/
def pyDropLast (s : String) : String := ⟨s.data.dropLast⟩

/-- Python `s[1:]`. -/
def pyDropFirst (s : String) : String := ⟨s.data.drop 1⟩

/-- Python `s[i:i+1]`: a one-character slice, empty when out of range. -/
def pySlice1 (s : String) (i : Nat) : List Char := (s.data.drop i).take 1

/-- Python substring containment `pat in s`. -/
def pyInStr (pat s : String) : Bool := pyInAux pat.data s.data
where
  pyInAux (p : List Char) : List Char → Bool
    | [] => p.isEmpty
    | c :: rest => p.isPrefixOf (c :: rest) || pyInAux p rest

/-- Python `s.replace(old, new, 1)` on character lists: replace the
first occurrence of `old` (matching Python, an empty `old` matches at
position 0). -/
def replaceFirstAux (old new : List Char) : List Char → List Char
  | [] => if old.isEmpty then new else []
  | c :: rest =>
    if old.isPrefixOf (c :: rest) then new ++ (c :: rest).drop old.length
    else c :: replaceFirstAux old new rest

/-- Python `s.replace(old, new, 1)`. -/
def pyReplaceFirst (s old new : String) : String :=
  ⟨replaceFirstAux old.data new.data s.data⟩

/-- The flag-start character class `[A-Za-z0-9]` of `_get_usedep_re` and
`_get_useflag_re`. -/
def isFlagFirstChar (c : Char) : Bool := c.isAlphanum

/-- The flag-body character class `[A-Za-z0-9+_@-]` of `_get_usedep_re`
and `_get_useflag_re`. -/
def isFlagChar (c : Char) : Bool :=
  c.isAlphanum || c = '+' || c = '_' || c = '@' || c = '-'

/-- Full-string match against `_get_useflag_re`:
`^[A-Za-z0-9][A-Za-z0-9+_@-]*$`. -/
def useflagReMatches (s : String) : Bool :=
  match s.data with
  | [] => false
  | c :: rest => isFlagFirstChar c && rest.all isFlagChar

/-- EAPI feature attributes consulted by this engine.  Modelled from the
spec: the `_eapi_attrs` record comes from `portage.eapi`, which is not
part of the embedded sources; the spec treats an EAPI as a feature-flag
set, so the attributes used by the dependency engine are carried as
plain booleans. -/
structure EapiAttrs where
  empty_groups_always_true : Bool
  required_use_at_most_one_of : Bool
  src_uri_arrows : Bool
  selective_src_uri_restriction : Bool
deriving DecidableEq

/-- Result of matching a USE-dependency token against `_get_usedep_re`
(`^(?P<prefix>[!-]?)(?P<flag>[A-Za-z0-9][A-Za-z0-9+_@-]*)`
`(?P<default>(\(\+\)|\(\-\))?)(?P<suffix>[?=]?)$`), with one field per
named group.  Since `(`, `?` and `=` are outside the flag character
class, the regex match is deterministic and is implemented directly. -/
structure UsedepMatch where
  pfx : String
  flag : String
  dflt : String
  sfx : String
deriving DecidableEq

/-- Match a token against `_get_usedep_re`; `none` models a failed
regex match. -/
def usedepMatch (x : String) : Option UsedepMatch :=
  let cs := x.data
  let pr : String × List Char :=
    match cs with
    | '!' :: rest => ("!", rest)
    | '-' :: rest => ("-", rest)
    | _ => ("", cs)
  match pr.2 with
  | [] => none
  | c :: rest =>
    if !isFlagFirstChar c then none
    else
      let flagRest := rest.takeWhile isFlagChar
      let after := rest.dropWhile isFlagChar
      let dr : String × List Char :=
        match after with
        | '(' :: '+' :: ')' :: r => ("(+)", r)
        | '(' :: '-' :: ')' :: r => ("(-)", r)
        | _ => ("", after)
      let sr : String × List Char :=
        match dr.2 with
        | '?' :: r => ("?", r)
        | '=' :: r => ("=", r)
        | _ => ("", dr.2)
      if sr.2.isEmpty then
        some ⟨pr.1, ⟨c :: flagRest⟩, dr.1, sr.1⟩
      else none

/-- The four conditional buckets of `_use_dep._conditionals_class`.
Python `frozenset`s are modelled as lists queried by membership. -/
structure UseConditionals where
  enabled : List String
  disabled : List String
  equal : List String
  not_equal : List String
deriving DecidableEq

/-- The `_use_dep` value attached to an atom.  The Python `frozenset`
fields are modelled as lists queried by membership. -/
structure UseDep where
  tokens : List String
  enabled : List String
  disabled : List String
  missing_enabled : List String
  missing_disabled : List String
  required : List String
  conditional : Option UseConditionals
deriving DecidableEq

/-- Python truthiness of a `_use_dep`: `__bool__` returns
`bool(self.tokens)`. -/
def UseDep.truthy (u : UseDep) : Bool := !u.tokens.isEmpty

/-- One step of the token loop of `_use_dep.evaluate_conditionals`,
threading the `(enabled_flags, disabled_flags, tokens)` accumulators.
`none` models the `AttributeError` Python raises when
`usedep_re.match(x)` returns `None` (well-formed `_use_dep` tokens
always match). -/
def evalCondStep (use : List String)
    (acc : List String × List String × List String) (x : String) :
    Option (List String × List String × List String) := do
  let (en, dis, toks) := acc
  let m ← usedepMatch x
  let operator := m.pfx ++ m.sfx
  let flag := m.flag
  let dflt := m.dflt
  if operator = "?" then
    if flag ∈ use then pure (en ++ [flag], dis, toks ++ [flag ++ dflt])
    else pure (en, dis, toks)
  else if operator = "=" then
    if flag ∈ use then pure (en ++ [flag], dis, toks ++ [flag ++ dflt])
    else pure (en, dis ++ [flag], toks ++ ["-" ++ flag ++ dflt])
  else if operator = "!=" then
    if flag ∈ use then pure (en, dis ++ [flag], toks ++ ["-" ++ flag ++ dflt])
    else pure (en ++ [flag], dis, toks ++ [flag ++ dflt])
  else if operator = "!?" then
    if flag ∉ use then pure (en, dis ++ [flag], toks ++ ["-" ++ flag ++ dflt])
    else pure (en, dis, toks)
  else pure (en, dis, toks ++ [x])

/-- The method `_use_dep.evaluate_conditionals(use)`: evaluate USE
conditionals against the enabled-flag set `use`, producing a new
`_use_dep` whose `conditional` attribute is `None`. -/
def UseDep.evaluate_conditionals (self : UseDep) (use : List String) :
    Option UseDep := do
  let r ← self.tokens.foldlM (evalCondStep use) (self.enabled, self.disabled, [])
  pure { tokens := r.2.2, enabled := r.1, disabled := r.2.1,
         missing_enabled := self.missing_enabled,
         missing_disabled := self.missing_disabled,
         required := self.required, conditional := none }

/-- Version-constraint operators of an atom (`Atom.operator`), `none`
standing for the Python `None` of a plain `cp` atom. -/
inductive Oper where
  | eq
  | eqStar
  | tilde
  | gt
  | ge
  | lt
  | le
deriving DecidableEq

/-- A parsed `Atom`, carrying the attributes the matching engine reads.
The Python class is a `str` subtype whose parsed fields are computed by
the regex grammar of `atom.py`; the structure below holds the parsed
fields directly (the regex parse itself is not embedded), with the
version kept split as in `catpkgsplit`: `ver` is the version proper and
`rev` an optional textual revision (`"r1"`).  The self-referential
`unevaluated_atom` back-reference is represented by
`unevaluated_use : Option (Option UseDep)` where `none` means
"`unevaluated_atom` is the atom itself" (only the `use` attribute of
`unevaluated_atom` is consulted by the engine). -/
structure Atom where
  blocker : Option Bool := none
  op : Option Oper := none
  cat : String
  pkg : String
  ver : Option String := none
  rev : Option String := none
  slot : Option String := none
  sub_slot : Option String := none
  repo : Option String := none
  use : Option UseDep := none
  unevaluated_use : Option (Option UseDep) := none
  build_id : Option Nat := none
  extended_syntax : Bool := false
deriving DecidableEq

/-- The `cp` (category/package) attribute. -/
def Atom.cp (a : Atom) : String := a.cat ++ "/" ++ a.pkg

/-- Textual suffix contributed by an optional revision. -/
def revSuffix : Option String → String
  | some r => "-" ++ r
  | none => ""

/-- The `cpv` attribute as a string: `cp` when the atom has no version,
`cp-ver[-rev]` otherwise. -/
def Atom.cpvStr (a : Atom) : String :=
  match a.ver with
  | some v => a.cp ++ "-" ++ v ++ revSuffix a.rev
  | none => a.cp

/-- The `version` attribute of the `_pkg_str` behind `Atom.cpv`: the
text after `cp-`, revision included (empty for unversioned atoms, whose
Python `version` is `None` and is never compared). -/
def Atom.versionStr (a : Atom) : String :=
  match a.ver with
  | some v => v ++ revSuffix a.rev
  | none => ""

/-- The `use` attribute of `Atom.unevaluated_atom`. -/
def Atom.unevaluatedUse (a : Atom) : Option UseDep :=
  match a.unevaluated_use with
  | some u => u
  | none => a.use

/-- The method `Atom.evaluate_conditionals(use)`.  The Python code
rebuilds the atom text with the evaluated USE string and reparses it
with `unevaluated_atom=self` and `_use=use_dep`; structurally this
replaces the `use` field and records the original `use` as the
`unevaluated_atom` back-reference.  `none` models the crash on a
`_use_dep` whose stored tokens fail the USE-dependency regex (impossible
for parsed atoms). -/
def Atom.evaluate_conditionals (self : Atom) (use : List String) :
    Option Atom :=
  match self.use with
  | none => some self
  | some ud =>
    if ud.truthy && ud.conditional.isSome then
      match ud.evaluate_conditionals use with
      | none => none
      | some d =>
        some { self with use := some d, unevaluated_use := some self.use }
    else some self

/-- The unknown-repository marker.  Modelled from the spec: candidates
whose repository is the "unknown" marker always pass the repo filter;
the constant `_unknown_repo` lives in `portage.versions`, outside the
embedded sources. -/
def _unknown_repo : String := "__unknown__"

/-- The USE state of a candidate package (`x.use.enabled`). -/
structure PkgUse where
  enabled : List String
deriving DecidableEq

/-- A candidate package record, as the spec's match-engine interface
exposes it: a `Package`/`_pkg_str`-like value with `cp`, `cpv`,
`version`, `cpv_split`, `slot`, `sub_slot`, `use`, `iuse`, `repo` and
`build_id` attributes.  The version is kept split (`ver` plus optional
textual revision) exactly as `cpv_split` reports it; `slot := none`
models a record without a slot attribute; `repo` defaults to the
unknown-repository marker as `_pkg_str` does. -/
structure Pkg where
  cat : String
  pkg : String
  ver : String
  rev : Option String := none
  slot : Option String := none
  sub_slot : Option String := none
  repo : String := _unknown_repo
  use : Option PkgUse := none
  iuse : List String := []
  build_id : Option Nat := none
deriving DecidableEq

/-- The `cp` attribute of a candidate. -/
def Pkg.cp (x : Pkg) : String := x.cat ++ "/" ++ x.pkg

/-- The `cpv` attribute of a candidate as a string. -/
def Pkg.cpvStr (x : Pkg) : String := x.cp ++ "-" ++ x.ver ++ revSuffix x.rev

/-- The `version` attribute of a candidate (text after `cp-`, revision
included). -/
def Pkg.version (x : Pkg) : String := x.ver ++ revSuffix x.rev

/-- Errors raised by the matching engine. -/
inductive MatchErr where
  | keyError (msg : String)
  | invalidAtom (msg : String)
deriving DecidableEq

/-- Leading-zero normalization of `match_from_list`'s `=*` branch:
`myver = ver.lstrip("0")`, restoring a `"0"` when the result is empty
or does not start with a digit. -/
def normVer (v : String) : String :=
  let t := v.data.dropWhile (· = '0')
  match t with
  | [] => "0"
  | c :: _ => if !c.isDigit then ⟨'0' :: t⟩ else ⟨t⟩

/-- The component-boundary test of the `=*` branch: the character of
the candidate's normalized cpv immediately after the matched prefix is
absent, is one of `. _ -`, or differs in digit-ness from the last
character of the matched prefix (bug 560466: `1*` must not match
`10`). -/
def globBoundaryOk (mycpv_cmp xcpv : String) : Bool :=
  match pySlice1 xcpv mycpv_cmp.data.length with
  | [] => true
  | nc :: _ =>
    nc = '.' || nc = '_' || nc = '-' ||
      ((pyLastChar mycpv_cmp).isDigit != nc.isDigit)

/-- Normalization of a cpv string in the `=*` branch: when left-stripping
leading zeros changes the version component, replace the first
occurrence of `cp-ver` with the normalized form (a first-occurrence
replace, preserving any revision suffix unchanged). -/
def normCpvStr (cp ver cpv : String) : String :=
  let mv := normVer ver
  if mv = ver then cpv
  else pyReplaceFirst cpv (cp ++ "-" ++ ver) (cp ++ "-" ++ mv)

/-- Candidate-side test of the `=*` branch: normalize the candidate's
cpv by the same leading-zero rule and accept when it starts with the
atom's normalized cpv and the match lands on a component boundary. -/
def eqStarAccept (mycpv_cmp : String) (x : Pkg) : Bool :=
  let xcpv := normCpvStr x.cp x.ver x.cpvStr
  pyStartsWith xcpv mycpv_cmp && globBoundaryOk mycpv_cmp xcpv

/-- The atom-side normalized cpv of the `=*` branch (`mycpv_cmp`). -/
def eqStarAtomCmp (a : Atom) (ver : String) : String :=
  normCpvStr a.cp ver a.cpvStr

/-- Wildcard `cp` match of `extended_cp_match`: the pattern's `*`
matches any run of non-`/` characters, every other character matches
itself (the compiled regex escapes regex metacharacters and turns `*`
into `[^/]*`). -/
def extMatchAux : List Char → List Char → Bool
  | [], s => s.isEmpty
  | '*' :: ps, [] => extMatchAux ps []
  | '*' :: ps, c :: cs =>
    extMatchAux ps (c :: cs) || (c ≠ '/' && extMatchAux ('*' :: ps) cs)
  | _ :: _, [] => false
  | p :: ps, c :: cs => p = c && extMatchAux ps cs
termination_by p s => (s.length, p.length)

/-- The function `extended_cp_match(extended_cp, other_cp)`. -/
def extended_cp_match (extended_cp other_cp : String) : Bool :=
  extMatchAux extended_cp.data other_cp.data

/-- The `mydep.extended_syntax` branch of `match_from_list`: glob-match
the candidate's `cp` and, for the wildcard `=*` variant, additionally
substring-match the literal version fragment (`mydep.version[1:-1]`). -/
def extendedFilter (a : Atom) (cands : List Pkg) : List Pkg :=
  let mylist := cands.filter (fun x =>
    x.cp = a.cpvStr || extended_cp_match a.cp x.cp)
  if !mylist.isEmpty && a.op = some .eqStar then
    let ver := pyDropLast (pyDropFirst a.versionStr)
    mylist.filter (fun x => pyInStr ver x.version)
  else mylist

/-- Result-sign test for the relational operators of
`match_from_list`. -/
def relOk (op : Oper) (r : Int) : Bool :=
  match op with
  | .gt => r > 0
  | .ge => r ≥ 0
  | .lt => r < 0
  | .le => r ≤ 0
  | _ => false

/-- Operator dispatch of `match_from_list` for a specific (versioned)
atom; `ver` is the version component from `catpkgsplit(mydep.cpv)`. -/
def opDispatch (vcmp : String → String → Option Int) (a : Atom)
    (op : Oper) (ver : String) (cands : List Pkg) : List Pkg :=
  match op with
  | .eq =>
    cands.filter (fun x =>
      ((x.cat = a.cat && x.pkg = a.pkg) &&
        (match vcmp x.version a.versionStr with
         | some r => r = 0
         | none => false)) &&
      (match a.build_id with
       | none => true
       | some b => x.build_id = some b))
  | .eqStar =>
    let mycpv_cmp := eqStarAtomCmp a ver
    cands.filter (eqStarAccept mycpv_cmp)
  | .tilde =>
    cands.filter (fun x =>
      ((x.cat = a.cat && x.pkg = a.pkg) &&
        (match vcmp x.ver ver with
         | some r => r = 0
         | none => false)) &&
      x.ver = ver)
  | _ =>
    cands.filter (fun x =>
      x.cp = a.cp &&
        (match vcmp x.version a.versionStr with
         | none => false
         | some r => relOk op r))

/-- The helper `_match_slot(atom, pkg)` for a candidate exposing a slot
attribute. -/
def matchSlotP (a : Atom) (xslot : String) (xsub : Option String) : Bool :=
  some xslot = a.slot &&
    ((match a.sub_slot with
      | none => true
      | some ss => ss.isEmpty) ||
     a.sub_slot = xsub)

/-- The slot filter stage of `match_from_list` (applied only when the
atom specifies a slot); a candidate without a slot attribute is kept. -/
def slotFilter (a : Atom) (l : List Pkg) : List Pkg :=
  match a.slot with
  | none => l
  | some _ =>
    l.filter (fun x =>
      match x.slot with
      | none => true
      | some s => matchSlotP a s x.sub_slot)

/-- Per-candidate test of the USE filter stage of `match_from_list`,
for a candidate exposing a `use` attribute. -/
def useAccept (a : Atom) (x : Pkg) (u : PkgUse) : Bool :=
  let uu := a.unevaluatedUse
  if (uu.map UseDep.truthy).getD false &&
      !((uu.map UseDep.required).getD []).all (· ∈ x.iuse) then false
  else
    match a.use with
    | none => true
    | some au =>
      if !au.truthy then true
      else
        let is_valid := fun f => decide (f ∈ x.iuse)
        let missing_enabled := au.missing_enabled.filter (fun f => !is_valid f)
        let missing_disabled := au.missing_disabled.filter (fun f => !is_valid f)
        let en_ok :=
          if !au.enabled.isEmpty then
            if missing_disabled.any (· ∈ au.enabled) then false
            else
              let need_enabled := au.enabled.filter (· ∉ u.enabled)
              if !need_enabled.isEmpty then
                !(need_enabled.any (· ∉ missing_enabled))
              else true
          else true
        let dis_ok :=
          if !au.disabled.isEmpty then
            if missing_enabled.any (· ∈ au.disabled) then false
            else
              let need_disabled := au.disabled.filter (· ∈ u.enabled)
              if !need_disabled.isEmpty then
                !(need_disabled.any (· ∉ missing_disabled))
              else true
          else true
        en_ok && dis_ok

/-- The USE filter stage of `match_from_list` (applied only when the
atom's unevaluated form carries USE tokens); a candidate without a
`use` attribute is kept. -/
def useFilter (a : Atom) (l : List Pkg) : List Pkg :=
  if (a.unevaluatedUse.map UseDep.truthy).getD false then
    l.filter (fun x =>
      match x.use with
      | none => true
      | some u => useAccept a x u)
  else l

/-- The repo filter stage of `match_from_list` (applied only when the
atom specifies a repository): keep a candidate whose repo equals the
atom's repo or is the unknown marker. -/
def repoFilter (a : Atom) (l : List Pkg) : List Pkg :=
  match a.repo with
  | none => l
  | some r =>
    if r.isEmpty then l
    else l.filter (fun x => x.repo = _unknown_repo || x.repo = r)

/-- The three trailing filter stages of `match_from_list`, in source
order: slot, USE, repo. -/
def postFilters (a : Atom) (l : List Pkg) : List Pkg :=
  repoFilter a (useFilter a (slotFilter a l))

/-- The function `match_from_list(mydep, candidate_list)` for an
already-parsed atom, over structured candidate records.
`catpkgsplit(mydep.cpv)` succeeds exactly for non-wildcard versioned
atoms (its version validation lives in the external versions module;
wildcard version fragments such as `*1*` do not split). -/
def matchFromList (vcmp : String → String → Option Int) (a : Atom)
    (cands : List Pkg) : Except MatchErr (List Pkg) :=
  if cands.isEmpty then .ok []
  else
    let mycpv_cps : Option (String × String) :=
      if a.extended_syntax then none
      else a.ver.map (fun v => (v, a.rev.getD "r0"))
    match mycpv_cps with
    | some (ver, _rev) =>
      if a.blocker = none ∧ a.op = none ∧ a.slot = none ∧
          a.repo = none ∧ a.use = none then
        .error (.keyError "Specific key requires an operator")
      else if !ver.isEmpty then
        match a.op with
        | none => .ok []
        | some op => .ok (postFilters a (opDispatch vcmp a op ver cands))
      else
        .ok (postFilters a (cands.filter (fun x => x.cp = a.cp)))
    | none =>
      let base :=
        if a.extended_syntax then extendedFilter a cands
        else cands.filter (fun x => x.cp = a.cp)
      .ok (postFilters a base)

/-- The string entry of `match_from_list`: the empty-candidate check
runs first, then the blocker prefix is stripped, then the string is
parsed into an atom (`Atom(mydep, allow_wildcard=True, allow_repo=True)`,
whose `InvalidAtom` is modelled by the abstract parser's error). -/
def match_from_list_str (vcmp : String → String → Option Int)
    (parseAtom : String → Except MatchErr Atom) (mydep : String)
    (cands : List Pkg) : Except MatchErr (List Pkg) :=
  if cands.isEmpty then .ok []
  else
    let s : String :=
      match mydep.data with
      | '!' :: '!' :: rest => ⟨rest⟩
      | '!' :: rest => ⟨rest⟩
      | _ => mydep
    match parseAtom s with
    | .error e => .error e
    | .ok a => matchFromList vcmp a cands

/-- The matched list of an `Except` result, empty on error. -/
def exGet (r : Except MatchErr (List Pkg)) : List Pkg :=
  match r with
  | .ok l => l
  | .error _ => []

/-- The function `match_to_list(mypkg, mylist)`: filter a list of atoms
to those matching one package, de-duplicating atoms (first occurrence
wins, duplicates are skipped before matching), preserving input
order. -/
def match_to_list (vcmp : String → String → Option Int) (mypkg : Pkg)
    (atoms : List Atom) : Except MatchErr (List Atom) := do
  let r ← atoms.foldlM
    (fun (acc : List Atom × List Atom) x => do
      if x ∈ acc.1 then pure acc
      else
        match matchFromList vcmp x [mypkg] with
        | .error e => throw e
        | .ok m =>
          if m.isEmpty then pure (acc.1 ++ [x], acc.2)
          else pure (acc.1 ++ [x], acc.2 ++ [x]))
    ([], [])
  pure r.2

/-- The specificity table `operator_values` of `best_match_to_list`. -/
def operatorValue : Option Oper → Int
  | some .eq => 6
  | some .tilde => 5
  | some .eqStar => 4
  | some .gt => 2
  | some .lt => 2
  | some .ge => 2
  | some .le => 2
  | none => 1

/-- Identity tags for the three cpv objects sorted by the rank-2
tie-break of `best_match_to_list` (the Python code compares the sorted
entries by object identity with `is`; within the sort branch the three
cpv strings are pairwise distinct, so tags model identity exactly). -/
inductive CpvTag where
  | best
  | mypkg
  | chal
deriving DecidableEq

/-- Strict-less test built from the comparison primitive, as
`cmp_sort_key(cmp_cpv)` uses it. -/
def cmpLt (vcmp : String → String → Option Int) (v1 v2 : String) : Bool :=
  match vcmp v1 v2 with
  | some r => r < 0
  | none => false

/-- Stable insertion into a sorted list (a new element goes after
existing equal ones, matching the stability of Python's sort). -/
def sortedInsert (vcmp : String → String → Option Int)
    (y : CpvTag × String) : List (CpvTag × String) → List (CpvTag × String)
  | [] => [y]
  | e :: rest =>
    if cmpLt vcmp y.2 e.2 then y :: e :: rest
    else e :: sortedInsert vcmp y rest

/-- Stable sort by the version comparison, as `cpv_list.sort(...)`. -/
def stableSortCpv (vcmp : String → String → Option Int)
    (l : List (CpvTag × String)) : List (CpvTag × String) :=
  l.foldl (fun acc y => sortedInsert vcmp y acc) []

/-- The rank-2 tie-break of `best_match_to_list`: keep the current best
when its cpv equals the package's or the challenger's; take the
challenger when its cpv equals the package's; otherwise sort the three
cpvs by version and take the challenger exactly when the package's cpv
sorts at an end and the challenger's is the middle element (the
package-in-the-middle configuration keeps the current best — the
source's `TODO: handle the case where mypkg_cpv is in the middle`). -/
def bestMatchTieBreak (vcmp : String → String → Option Int)
    (bestm x : Atom) (mypkg : Pkg) : Atom :=
  if bestm.cpvStr = mypkg.cpvStr || bestm.cpvStr = x.cpvStr then bestm
  else if x.cpvStr = mypkg.cpvStr then x
  else
    let cpv_list := stableSortCpv vcmp
      [(CpvTag.best, bestm.versionStr), (CpvTag.mypkg, mypkg.version),
       (CpvTag.chal, x.versionStr)]
    let tags := cpv_list.map Prod.fst
    if (tags.head? = some CpvTag.mypkg || tags.getLast? = some CpvTag.mypkg) &&
        tags.get? 1 = some CpvTag.chal then x
    else bestm

/-- Running maximum of the `best_match_to_list` loop. -/
structure BestState where
  maxvalue : Int
  bestm : Option Atom
deriving DecidableEq

/-- One iteration of the `best_match_to_list` loop over a matched
atom. -/
def bestStep (vcmp : String → String → Option Int) (mypkg : Pkg)
    (st : BestState) (x : Atom) : BestState :=
  if x.extended_syntax then
    if x.op = some .eqStar then
      if st.maxvalue < 0 then { maxvalue := 0, bestm := some x } else st
    else if x.slot ≠ none then
      if st.maxvalue < -1 then { maxvalue := -1, bestm := some x } else st
    else
      if st.maxvalue < -2 then { maxvalue := -2, bestm := some x } else st
  else
    let st1 :=
      if x.slot ≠ none then
        if st.maxvalue < 3 then { maxvalue := 3, bestm := some x } else st
      else st
    let op_val := operatorValue x.op
    if op_val > st1.maxvalue then { maxvalue := op_val, bestm := some x }
    else if op_val = st1.maxvalue ∧ op_val = 2 then
      match st1.bestm with
      | some b => { st1 with bestm := some (bestMatchTieBreak vcmp b x mypkg) }
      | none => st1
    else st1

/-- The function `best_match_to_list(mypkg, mylist)`. -/
def best_match_to_list (vcmp : String → String → Option Int) (mypkg : Pkg)
    (atoms : List Atom) : Except MatchErr (Option Atom) := do
  let matched ← match_to_list vcmp mypkg atoms
  let fin := matched.foldl (bestStep vcmp mypkg) { maxvalue := -99, bestm := none }
  pure fin.bestm

/-- Errors raised by the dependency-string reducers. -/
inductive DepErr where
  | invalidDependString (msg : String)
  | valueError (msg : String)
  | invalidAtom (msg : String)
  | assertionError (msg : String)
  | attributeError (msg : String)
deriving DecidableEq

/-- Whether a `DepErr` is an `InvalidDependString`. -/
def DepErr.isIDS : DepErr → Bool
  | .invalidDependString _ => true
  | _ => false

mutual
/-- A node of the REQUIRED_USE tree (`_RequiredUseLeaf` /
`_RequiredUseBranch`); the parent back-reference of the Python class is
carried by the parsing zipper instead of the node. -/
inductive RNode where
  | leaf (token : String) (satisfied : Bool) : RNode
  | branch (operator : Option String) (satisfied : Bool)
      (children : RNodes) : RNode
  deriving DecidableEq
/-- Child list of a REQUIRED_USE branch. -/
inductive RNodes where
  | nil : RNodes
  | cons (head : RNode) (tail : RNodes) : RNodes
  deriving DecidableEq
end

/-- Append one child at the end (Python `list.append`). -/
def RNodes.snoc : RNodes → RNode → RNodes
  | .nil, y => .cons y .nil
  | .cons h t, y => .cons h (t.snoc y)

/-- Concatenate two child lists (Python `list.extend`). -/
def RNodes.appendAll : RNodes → RNodes → RNodes
  | .nil, ys => ys
  | .cons h t, ys => .cons h (t.appendAll ys)

/-- Number of children. -/
def RNodes.length : RNodes → Nat
  | .nil => 0
  | .cons _ t => t.length + 1

/-- The `_satisfied` attribute of a node. -/
def RNode.satisfiedOf : RNode → Bool
  | .leaf _ s => s
  | .branch _ s _ => s

/-- An entry of the boolean evaluation stack of `check_required_use`
(Python keeps operator strings and booleans in the same lists). -/
inductive SItem where
  | op (s : String)
  | b (v : Bool)
deriving DecidableEq

/-- The `valid_operators` tuple of `check_required_use` (and
`get_required_use_flags`): `??` only with EAPIs that support
at-most-one-of. -/
def validOperators (attrs : EapiAttrs) : List String :=
  if attrs.required_use_at_most_one_of then ["||", "^^", "??"]
  else ["||", "^^"]

/-- The inner `is_satisfied(operator, argument)` of
`check_required_use`: an empty argument list is satisfied outright when
the EAPI treats empty groups as true; otherwise `||` needs one true,
`^^` exactly one true, `??` at most one true, and a conditional group
(operator ending in `?`) needs no false. -/
def cruIsSatisfied (attrs : EapiAttrs) (operator : String)
    (l : List SItem) : Bool :=
  if l.isEmpty && attrs.empty_groups_always_true then true
  else if operator = "||" then decide (SItem.b true ∈ l)
  else if operator = "^^" then decide (l.count (SItem.b true) = 1)
  else if operator = "??" then decide (l.count (SItem.b true) ≤ 1)
  else if pyEndsWith operator "?" then !decide (SItem.b false ∈ l)
  else false

/-- The inner `is_active(token)` of `check_required_use`: strip a `!`
negation, reject flags not matched by `iuse_match` (with a dedicated
message when `??` is used under an EAPI without at-most-one-of), and
test membership in the enabled set. -/
def cruIsActive (attrs : EapiAttrs) (iuse_match : String → Bool)
    (use : List String) (token : String) : Except DepErr Bool :=
  let p : Bool × String :=
    if pyStartsWith token "!" then (true, pyDropFirst token)
    else (false, token)
  let flag := p.2
  let is_negated := p.1
  if flag.isEmpty || !iuse_match flag then
    if !attrs.required_use_at_most_one_of && flag = "?" then
      .error (.invalidDependString
        "Operator ?? is not supported with this EAPI")
    else
      .error (.invalidDependString "USE flag is not in IUSE")
  else
    .ok ((decide (flag ∈ use) && !is_negated) ||
      (!decide (flag ∈ use) && is_negated))

/-- A zipper frame of the REQUIRED_USE tree under construction: the
node's operator, its `_satisfied` flag, and the children accumulated so
far (for a parent frame, the elder siblings of the open child). -/
structure RFrame where
  operator : Option String
  satisfied : Bool
  elder : RNodes
deriving DecidableEq

/-- Parser state of `check_required_use`: the boolean stack (head is
the innermost level), the zipper context of open ancestors, the node
being built, and the `need_bracket` flag. -/
structure CRUState where
  stack : List (List SItem)
  ctx : List RFrame
  cur : RFrame
  need_bracket : Bool

/-- Push an item onto the innermost stack level (Python
`stack[level].append`). -/
def pushTop (stack : List (List SItem)) (i : SItem) : List (List SItem) :=
  match stack with
  | top :: rest => (top ++ [i]) :: rest
  | [] => [[i]]

/-- Membership of an optional operator in `valid_operators` (Python
`node._parent._operator not in valid_operators` is false for `None`). -/
def optInValidOps (attrs : EapiAttrs) : Option String → Bool
  | some s => decide (s ∈ validOperators attrs)
  | none => false

/-- Ascend after closing a group whose stack slot held an operator
(`op is not None` in the `)` handler): an empty group is discarded; a
singleton `||`/`^^`/`??` group is replaced by its only child, which is
further spliced into the parent when it is a plain branch under a
non-disjunctive parent; any other group stays attached. -/
def cruAttachOp (attrs : EapiAttrs) (s : String) (cur : RFrame)
    (fr : RFrame) : RFrame :=
  match cur.elder with
  | .nil => fr
  | .cons c .nil =>
    if decide (s ∈ validOperators attrs) then
      match c with
      | .leaf _ _ => { fr with elder := fr.elder.snoc c }
      | .branch cop csat cch =>
        if cop = none ∧ ¬ optInValidOps attrs fr.operator then
          { fr with elder := fr.elder.appendAll cch }
        else
          { fr with elder := fr.elder.snoc (.branch cop csat cch) }
    else
      { fr with elder :=
          fr.elder.snoc (.branch cur.operator cur.satisfied cur.elder) }
  | _ =>
    { fr with elder :=
        fr.elder.snoc (.branch cur.operator cur.satisfied cur.elder) }

/-- Ascend after closing a group with no preceding operator (`op is
None`): the node is spliced out (children moved to the parent) when it
has at most one child or the parent is not a disjunctive/XOR group;
otherwise it stays attached. -/
def cruAttachNone (attrs : EapiAttrs) (cur : RFrame) (fr : RFrame) : RFrame :=
  if cur.elder.length ≤ 1 ∨ ¬ optInValidOps attrs fr.operator then
    { fr with elder := fr.elder.appendAll cur.elder }
  else
    { fr with elder :=
        fr.elder.snoc (.branch cur.operator cur.satisfied cur.elder) }

/-- The `)` handler of `check_required_use`. -/
def cruCloseParen (attrs : EapiAttrs) (iuse_match : String → Bool)
    (use : List String) (st : CRUState) : Except DepErr CRUState :=
  match st.stack with
  | l :: stl :: rest =>
    match st.ctx with
    | [] => .error (.assertionError "node has no parent")
    | fr :: ctxRest =>
      match stl.getLast? with
      | some (SItem.op s) =>
        if s ∈ validOperators attrs then
          let satisfied := cruIsSatisfied attrs s l
          let cur := { st.cur with satisfied := satisfied }
          .ok { stack := (stl.dropLast ++ [SItem.b satisfied]) :: rest,
                ctx := ctxRest, cur := cruAttachOp attrs s cur fr,
                need_bracket := false }
        else if pyEndsWith s "?" then
          match cruIsActive attrs iuse_match use (pyDropLast s) with
          | .error e => .error e
          | .ok true =>
            let satisfied := cruIsSatisfied attrs s l
            let cur := { st.cur with satisfied := satisfied }
            .ok { stack := (stl.dropLast ++ [SItem.b satisfied]) :: rest,
                  ctx := ctxRest, cur := cruAttachOp attrs s cur fr,
                  need_bracket := false }
          | .ok false =>
            .ok { stack := stl.dropLast :: rest, ctx := ctxRest,
                  cur := fr, need_bracket := false }
        else
          let satisfied := !decide (SItem.b false ∈ l)
          let stl2 := if l.isEmpty then stl else stl ++ [SItem.b satisfied]
          let cur := { st.cur with satisfied := satisfied }
          .ok { stack := stl2 :: rest, ctx := ctxRest,
                cur := cruAttachNone attrs cur fr, need_bracket := false }
      | _ =>
        let satisfied := !decide (SItem.b false ∈ l)
        let stl2 := if l.isEmpty then stl else stl ++ [SItem.b satisfied]
        let cur := { st.cur with satisfied := satisfied }
        .ok { stack := stl2 :: rest, ctx := ctxRest,
              cur := cruAttachNone attrs cur fr, need_bracket := false }
  | _ => .error (.invalidDependString "malformed syntax")

/-- One token step of `check_required_use`. -/
def cruStep (attrs : EapiAttrs) (iuse_match : String → Bool)
    (use : List String) (st : CRUState) (token : String) :
    Except DepErr CRUState :=
  if token = "(" then
    if !st.need_bracket then
      .ok { stack := [] :: st.stack, ctx := st.cur :: st.ctx,
            cur := { operator := none, satisfied := false, elder := .nil },
            need_bracket := false }
    else
      .ok { st with stack := [] :: st.stack, need_bracket := false }
  else if token = ")" then
    if st.need_bracket then .error (.invalidDependString "malformed syntax")
    else cruCloseParen attrs iuse_match use st
  else if token ∈ validOperators attrs then
    if st.need_bracket then .error (.invalidDependString "malformed syntax")
    else
      .ok { stack := pushTop st.stack (SItem.op token),
            ctx := st.cur :: st.ctx,
            cur := { operator := some token, satisfied := false,
                     elder := .nil },
            need_bracket := true }
  else if st.need_bracket then
    .error (.invalidDependString "malformed syntax")
  else if pyEndsWith token "?" then
    .ok { stack := pushTop st.stack (SItem.op token),
          ctx := st.cur :: st.ctx,
          cur := { operator := some token, satisfied := false,
                   elder := .nil },
          need_bracket := true }
  else
    match cruIsActive attrs iuse_match use token with
    | .error e => .error e
    | .ok satisfied =>
      .ok { st with
              stack := pushTop st.stack (SItem.b satisfied),
              cur := { st.cur with
                         elder := st.cur.elder.snoc (.leaf token satisfied) } }

/-- Plug a zipper back together (identity on the successful final state,
whose context is empty). -/
def cruPlug : List RFrame → RFrame → RFrame
  | [], cur => cur
  | fr :: rest, cur =>
    cruPlug rest
      { fr with elder := fr.elder.snoc (.branch cur.operator cur.satisfied cur.elder) }

/-- The function `check_required_use(required_use, use, iuse_match,
eapi)`: parse the constraint string, evaluate satisfaction bottom-up,
and return the explanation tree whose root `_satisfied` is the
conjunction of the top-level stack entries. -/
def check_required_use (attrs : EapiAttrs) (iuse_match : String → Bool)
    (required_use : String) (use : List String) : Except DepErr RNode := do
  let init : CRUState :=
    { stack := [[]], ctx := [],
      cur := { operator := none, satisfied := false, elder := .nil },
      need_bracket := false }
  let fin ← (pySplit required_use).foldlM (cruStep attrs iuse_match use) init
  if fin.stack.length ≠ 1 ∨ fin.need_bracket then
    .error (.invalidDependString "malformed syntax")
  else
    let top := fin.stack.headD []
    let root := cruPlug fin.ctx fin.cur
    .ok (.branch root.operator (!decide (SItem.b false ∈ top)) root.elder)

/-- The operators that make rendering `complex_nesting` in
`_RequiredUseBranch.tounicode`. -/
def complexOps : List String := ["||", "^^", "??"]

mutual
/-- The method `tounicode` of a REQUIRED_USE node: a leaf prints its
token; a branch prints its operator and parenthesized children (parens
omitted at the root), rendering every child verbatim when the node or
an ancestor is a `||`/`^^`/`??` group and only unsatisfied children
otherwise.  `anc` carries whether an ancestor (or the node reached so
far on the walk) is such a group. -/
def RNode.tounicodeAux : Bool → Bool → RNode → String
  | _, _, .leaf t _ => t
  | anc, isRoot, .branch operator _ children =>
    let complex := anc ||
      (match operator with
       | some s => decide (s ∈ complexOps)
       | none => false)
    let opToks : List String :=
      match operator with
      | some s => [s]
      | none => []
    let kidsToks := RNodes.renderKids complex children
    let toks := opToks ++
      (if isRoot then kidsToks else ["("] ++ kidsToks ++ [")"])
    String.intercalate " " toks
/-- Render the children of a branch: all of them in a complex
(disjunctive/XOR) context, only the unsatisfied ones otherwise. -/
def RNodes.renderKids : Bool → RNodes → List String
  | _, .nil => []
  | complex, .cons h t =>
    (if complex || !h.satisfiedOf then [RNode.tounicodeAux complex false h]
     else []) ++ RNodes.renderKids complex t
end

/-- The method `tounicode()` as called on the tree returned by
`check_required_use` (the root has no parent, so no parens). -/
def RNode.tounicode (root : RNode) : String :=
  RNode.tounicodeAux false true root

mutual
/-- An element of a reduced dependency structure: a plain token, an
atom produced by `token_class`, or a nested group (Python represents
groups as nested lists). -/
inductive DepNode where
  | tok (s : String) : DepNode
  | atomLeaf (a : Atom) : DepNode
  | grp (children : DepNodes) : DepNode
  deriving DecidableEq
/-- A (level of a) reduced dependency structure. -/
inductive DepNodes where
  | nil : DepNodes
  | cons (head : DepNode) (tail : DepNodes) : DepNodes
  deriving DecidableEq
end

/-- Append one element at the end (Python `list.append`). -/
def DepNodes.snoc : DepNodes → DepNode → DepNodes
  | .nil, y => .cons y .nil
  | .cons h t, y => .cons h (t.snoc y)

/-- Concatenate (Python `list.extend`). -/
def DepNodes.appendAll : DepNodes → DepNodes → DepNodes
  | .nil, ys => ys
  | .cons h t, ys => .cons h (t.appendAll ys)

/-- Singleton structure. -/
def DepNodes.single (d : DepNode) : DepNodes := .cons d .nil

/-- Length. -/
def DepNodes.length : DepNodes → Nat
  | .nil => 0
  | .cons _ t => t.length + 1

/-- Emptiness (Python truthiness of a list). -/
def DepNodes.isEmpty : DepNodes → Bool
  | .nil => true
  | .cons _ _ => false

/-- First element. -/
def DepNodes.headOpt : DepNodes → Option DepNode
  | .nil => none
  | .cons h _ => some h

/-- Last element. -/
def DepNodes.getLastOpt : DepNodes → Option DepNode
  | .nil => none
  | .cons h .nil => some h
  | .cons _ (.cons h t) => DepNodes.getLastOpt (.cons h t)

/-- All but the last element (Python `list.pop()` on the level). -/
def DepNodes.dropLast : DepNodes → DepNodes
  | .nil => .nil
  | .cons _ .nil => .nil
  | .cons h (.cons h2 t) => .cons h (DepNodes.dropLast (.cons h2 t))

/-- All but the first element (Python `l[1:]`). -/
def DepNodes.tailD : DepNodes → DepNodes
  | .nil => .nil
  | .cons _ t => t

/-- Whether a Python value equals the string `"||"` (true only for that
token: an atom's text is never `"||"` and a list never equals a
string). -/
def isOrTok : DepNode → Bool
  | .tok s => s = "||"
  | _ => false

/-- The Python test `v[-1] == "?"`: for a string (or atom, a string
subtype), its last character is `?`; for a list, its last element
equals the token `"?"` (atom text never ends in `?`). -/
def lastIsQmark : DepNode → Bool
  | .tok s => pyEndsWith s "?"
  | .atomLeaf _ => false
  | .grp l =>
    match l.getLastOpt with
    | some (.tok s) => s = "?"
    | _ => false

/-- The Python test `isinstance(v, str)` (atoms are `str` subtypes,
lists are not). -/
def isStrLike : DepNode → Bool
  | .grp _ => false
  | _ => true

/-- Argument record of `use_reduce`/`_use_reduce_cached`.  The `eapi`
string argument is represented by the feature attributes the engine
derives from it (`_get_eapi_attrs(eapi)` lives in `portage.eapi`);
`token_class` is the leaf constructor (the Python `Atom` class, whose
`InvalidAtom` is the error of the supplied function). -/
structure URArgs where
  uselist : List String := []
  masklist : List String := []
  matchall : Bool := false
  excludeall : List String := []
  is_src_uri : Bool := false
  attrs : EapiAttrs
  opconvert : Bool := false
  flat : Bool := false
  is_valid_flag : Option (String → Bool) := none
  token_class : Option (String → Except DepErr Atom) := none
  matchnone : Bool := false
  subset : Option (List String) := none

/-- The inner `is_active(conditional)` of `_use_reduce_cached`: strip
the `!`/`?` decorations, validate the flag (by `is_valid_flag` when
supplied, by the USE-flag regex otherwise), then apply the
exclude/mask/matchall/matchnone overrides before the membership
test. -/
def urFlagOf (conditional : String) : Bool × String :=
  if pyStartsWith conditional "!" then
    (true, pyDropLast (pyDropFirst conditional))
  else (false, pyDropLast conditional)

/-- The membership test of `is_active` after validation: the
exclude/mask/matchall/matchnone overrides, then the `uselist`
lookup. -/
def urIsActiveRes (args : URArgs) (is_negated : Bool) (flag : String) :
    Except DepErr Bool :=
  if is_negated && flag ∈ args.excludeall then .ok false
  else if flag ∈ args.masklist then .ok is_negated
  else if args.matchall then .ok true
  else if args.matchnone then .ok false
  else
    .ok ((decide (flag ∈ args.uselist) && !is_negated) ||
      (!decide (flag ∈ args.uselist) && is_negated))

/-- Flag validation (by `is_valid_flag` when supplied, by the USE-flag
regex otherwise) followed by the membership test. -/
def urIsActiveCore (args : URArgs) (is_negated : Bool) (flag : String) :
    Except DepErr Bool :=
  match args.is_valid_flag with
  | some f =>
    if !f flag then
      .error (.invalidDependString
        "USE flag referenced in conditional is not in IUSE")
    else urIsActiveRes args is_negated flag
  | none =>
    if !useflagReMatches flag then
      .error (.invalidDependString "invalid use flag in conditional")
    else urIsActiveRes args is_negated flag

def urIsActive (args : URArgs) (conditional : String) : Except DepErr Bool :=
  urIsActiveCore args (urFlagOf conditional).1 (urFlagOf conditional).2

/-- The helper `missing_white_space_check(token, pos)` followed by the
generic rewrap: every parse failure at a leaf token surfaces as an
`InvalidDependString`. -/
def missingWhiteSpaceErr (token : String) : DepErr :=
  if pyStartsWith token ")" || pyEndsWith token ")" then
    .invalidDependString "missing whitespace around )"
  else if pyStartsWith token "(" || pyEndsWith token "(" then
    .invalidDependString "missing whitespace around ("
  else if pyStartsWith token "||" || pyEndsWith token "||" then
    .invalidDependString "missing whitespace around ||"
  else .invalidDependString "Invalid atom"

/-- The helper `ends_in_any_of_dep(k)`: the level list ends in a `"||"`
token; `k >= 0` fails below the bottom level. -/
def endsInAnyOf : Option DepNodes → Bool
  | some s =>
    match s.getLastOpt with
    | some d => isOrTok d
    | none => false
  | none => false

/-- The helper `last_any_of_operator_level(k)` of `_use_reduce_cached`,
reduced to the only fact its caller uses (whether the returned level is
`-1` or not): walk the levels downward; a level ending in `"||"` means
an any-of operator is in effect, a level ending in a non-conditional
string stops the search, anything else continues downward. -/
def lastAnyOfOperatorLevel : List DepNodes → Bool
  | [] => false
  | s :: rest =>
    match s.getLastOpt with
    | some d =>
      if isStrLike d then
        if isOrTok d then true
        else if !lastIsQmark d then false
        else lastAnyOfOperatorLevel rest
      else lastAnyOfOperatorLevel rest
    | none => lastAnyOfOperatorLevel rest

/-- The inner `special_append()` of the `)` handler: use extend instead
of append where possible, killing redundant brackets.  `below` is the
stack below the current level (for the `level - 1` queries).  The
`stack[level].extend(l[1])` of the non-opconvert any-of merge requires
`l[1]` to be a group (the reducer's invariant; a string there would be
iterated character-wise by Python and cannot arise). -/
def urSpecialAppend (args : URArgs) (is_single : Bool) (l : DepNodes)
    (stl : DepNodes) (below : List DepNodes) : Except DepErr DepNodes :=
  if is_single then
    if (match l.headOpt with
        | some d => isOrTok d
        | none => false) && endsInAnyOf below.head? then
      if args.opconvert then .ok (stl.appendAll l.tailD)
      else
        match l.tailD.headOpt with
        | some (.grp g) => .ok (stl.appendAll g)
        | _ => .error (.assertionError "expected a group after ||")
    else
      match l with
      | .cons (.grp g) .nil =>
        if !lastAnyOfOperatorLevel below then
          if args.opconvert &&
              (match g.headOpt with
               | some d => isOrTok d
               | none => false) then
            .ok (stl.snoc (.grp g))
          else .ok (stl.appendAll g)
        else
          if args.opconvert &&
              (match g.headOpt with
               | some d => isOrTok d
               | none => false) then
            .ok (stl.appendAll g.tailD)
          else .ok (stl.snoc (.grp g))
      | _ => .ok (stl.appendAll l)
  else
    if args.opconvert &&
        (match stl.getLastOpt with
         | some d => isOrTok d
         | none => false) then
      .ok (stl.dropLast.snoc (.grp (DepNodes.single (.tok "||") |>.appendAll l)))
    else .ok (stl.snoc (.grp l))

/-- Parser state of `_use_reduce_cached`: the level stack (head is the
innermost level) and the two lookahead flags. -/
structure URState where
  stack : List DepNodes
  need_bracket : Bool
  need_simple_token : Bool

/-- Push an element onto the innermost level. -/
def urPushTop (stack : List DepNodes) (d : DepNode) : List DepNodes :=
  match stack with
  | top :: rest => (top.snoc d) :: rest
  | [] => [DepNodes.single d]

/-- The tail of the `)` handler once the popped level `l2` is known to
be nonempty and not ignored: the bracket-collapsing optimization chain
around `special_append()`. -/
def urAppendStage (args : URArgs) (is_single : Bool) (l2 stl2 : DepNodes)
    (below : List DepNodes) : Except DepErr (List DepNodes) :=
  if !endsInAnyOf below.head? && !endsInAnyOf (some stl2) then
    .ok ((stl2.appendAll l2) :: below)
  else if stl2.isEmpty then
    match urSpecialAppend args is_single l2 stl2 below with
    | .error e => .error e
    | .ok stl3 => .ok (stl3 :: below)
  else if is_single && endsInAnyOf (some stl2) then
    match urSpecialAppend args is_single l2 stl2.dropLast below with
    | .error e => .error e
    | .ok stl3 => .ok (stl3 :: below)
  else if endsInAnyOf (some stl2) && endsInAnyOf below.head? then
    .ok ((stl2.dropLast.appendAll l2) :: below)
  else if args.opconvert && endsInAnyOf (some stl2) then
    .ok ((stl2.dropLast.snoc
      (.grp (DepNodes.single (.tok "||") |>.appendAll l2))) :: below)
  else
    match urSpecialAppend args is_single l2 stl2 below with
    | .error e => .error e
    | .ok stl3 => .ok (stl3 :: below)

/-- The `)` handler of `_use_reduce_cached` for `level > 0`: `l` is the
popped level, `stl` the enclosing level, `below` the rest of the stack.
Handles flat-mode merging, the `|| ( )` empty-group constant, inactive
conditionals, and the bracket-collapsing optimization chain. -/
def urCloseParen (args : URArgs) (l stl : DepNodes) (below : List DepNodes) :
    Except DepErr (List DepNodes) :=
  let headIsOr : Bool :=
    match l.headOpt with
    | some d => isOrTok d
    | none => false
  let is_single : Bool := decide (l.length = 1) ||
    (args.opconvert && !l.isEmpty && headIsOr) ||
    (!args.opconvert && decide (l.length = 2) && headIsOr)
  if args.flat then
    match stl.getLastOpt with
    | some d =>
      if lastIsQmark d then
        match d with
        | .tok s =>
          match urIsActive args s with
          | .error e => .error e
          | .ok true => .ok ((stl.dropLast.appendAll l) :: below)
          | .ok false => .ok (stl.dropLast :: below)
        | _ => .error (.attributeError "is_active on a non-string token")
      else .ok ((stl.appendAll l) :: below)
    | none => .ok ((stl.appendAll l) :: below)
  else
    let step1 : Except DepErr (DepNodes × DepNodes × Bool) :=
      match stl.getLastOpt with
      | some d =>
        if isStrLike d then
          if isOrTok d && l.isEmpty then
            if !args.attrs.empty_groups_always_true then
              match args.token_class with
              | none =>
                .ok (DepNodes.single (.tok "__const__/empty-any-of"),
                  stl.dropLast, false)
              | some tc =>
                match tc "__const__/empty-any-of" with
                | .error e => .error e
                | .ok a =>
                  .ok (DepNodes.single (.atomLeaf a), stl.dropLast, false)
            else .ok (l, stl.dropLast, false)
          else if lastIsQmark d then
            match d with
            | .tok s =>
              match urIsActive args s with
              | .error e => .error e
              | .ok active => .ok (l, stl.dropLast, !active)
            | _ => .error (.attributeError "is_active on a non-string token")
          else .ok (l, stl, false)
        else .ok (l, stl, false)
      | none => .ok (l, stl, false)
    match step1 with
    | .error e => .error e
    | .ok (l2, stl2, ignore) =>
      if !l2.isEmpty && !ignore then
        urAppendStage args is_single l2 stl2 below
      else
        .ok (stl2 :: below)

/-- The token loop of `_use_reduce_cached`; recursion carries the rest
of the token stream, giving the one-token lookahead of the
`mysplit[pos + 1] == ")"` empty-group check. -/
def urLoop (args : URArgs) : URState → List String → Except DepErr DepNodes
  | st, [] =>
    if st.stack.length ≠ 1 then
      .error (.invalidDependString "Missing ) at end of string")
    else if st.need_bracket then
      .error (.invalidDependString "Missing ( at end of string")
    else if st.need_simple_token then
      .error (.invalidDependString "Missing file name at end of string")
    else .ok (st.stack.headD .nil)
  | st, token :: rest =>
    if token = "(" then
      if st.need_simple_token then
        .error (.invalidDependString "expected: file name, got: (")
      else if rest.head? = some ")" then
        .error (.invalidDependString "expected: dependency string, got: )")
      else
        urLoop args { st with stack := .nil :: st.stack,
                              need_bracket := false } rest
    else if token = ")" then
      if st.need_bracket then
        .error (.invalidDependString "expected: (, got: )")
      else if st.need_simple_token then
        .error (.invalidDependString "expected: file name, got: )")
      else
        match st.stack with
        | l :: stl :: below =>
          match urCloseParen args l stl below with
          | .error e => .error e
          | .ok stack2 => urLoop args { st with stack := stack2 } rest
        | _ => .error (.invalidDependString "no matching ( for )")
    else if token = "||" then
      if args.is_src_uri then
        .error (.invalidDependString
          "any-of dependencies are not allowed in SRC_URI")
      else if st.need_bracket then
        .error (.invalidDependString "expected: (, got: ||")
      else
        urLoop args { st with stack := urPushTop st.stack (.tok "||"),
                              need_bracket := true } rest
    else if token = "->" then
      if st.need_simple_token then
        .error (.invalidDependString "expected: file name, got: ->")
      else if ¬ args.is_src_uri then
        .error (.invalidDependString
          "SRC_URI arrow are only allowed in SRC_URI")
      else if ¬ args.attrs.src_uri_arrows then
        .error (.invalidDependString "SRC_URI arrow not allowed in EAPI")
      else
        urLoop args { st with stack := urPushTop st.stack (.tok "->"),
                              need_simple_token := true } rest
    else if st.need_bracket then
      .error (.invalidDependString "expected: (, got a plain token")
    else if st.need_simple_token ∧ pyInStr "/" token then
      .error (.invalidDependString "expected: file name")
    else if pyEndsWith token "?" then
      urLoop args { st with stack := urPushTop st.stack (.tok token),
                            need_bracket := true } rest
    else if args.is_src_uri then
      if ¬ args.attrs.selective_src_uri_restriction ∧
          (pyStartsWith token "fetch+" ∨ pyStartsWith token "mirror+") then
        .error (.invalidDependString
          "Selective fetch/mirror restriction not allowed in this EAPI")
      else
        urLoop args { st with stack := urPushTop st.stack (.tok token),
                              need_simple_token := false } rest
    else
      match args.token_class with
      | none =>
        urLoop args { st with stack := urPushTop st.stack (.tok token),
                              need_simple_token := false } rest
      | some tc =>
        match tc token with
        | .error _ => .error (missingWhiteSpaceErr token)
        | .ok a =>
          if args.matchall then
            urLoop args { st with stack := urPushTop st.stack (.atomLeaf a),
                                  need_simple_token := false } rest
          else
            match a.evaluate_conditionals args.uselist with
            | none =>
              .error (.attributeError
                "evaluate_conditionals on malformed use tokens")
            | some a2 =>
              urLoop args { st with
                            stack := urPushTop st.stack (.atomLeaf a2),
                            need_simple_token := false } rest

/-- The function `paren_reduce(mystr)`: convert paren-enclosed entities
into sublists, removing redundant brackets.  Used by the `subset`
preprocessing of `_use_reduce_cached`. -/
def parenReduceClose (l stl : DepNodes) (below : List DepNodes) :
    List DepNodes :=
  let headIsOp : Bool :=
    match l.headOpt with
    | some d => isOrTok d || lastIsQmark d
    | none => false
  let is_single : Bool := decide (l.length = 1) ||
    (decide (l.length = 2) && headIsOp)
  let endsUp := endsInAnyOf below.head?
  let endsOpHere : Bool :=
    match stl.getLastOpt with
    | some d => isOrTok d || lastIsQmark d
    | none => false
  let specialAppend : DepNodes → DepNodes := fun stl2 =>
    if is_single &&
        (stl2.isEmpty ||
          !(match stl2.getLastOpt with
            | some d => lastIsQmark d
            | none => false)) then
      match l with
      | .cons (.grp g) .nil => stl2.appendAll g
      | _ => stl2.appendAll l
    else stl2.snoc (.grp l)
  if !l.isEmpty then
    if !endsUp && !endsOpHere then
      (stl.appendAll l) :: below
    else if stl.isEmpty then
      specialAppend stl :: below
    else if decide (l.length = 1) && endsInAnyOf (some stl) then
      specialAppend stl.dropLast :: below
    else if decide (l.length = 2) && headIsOp &&
        (match stl.getLastOpt, l.headOpt with
         | some last, some first => decide (last = first) || isOrTok last
         | _, _ => false) then
      specialAppend stl.dropLast :: below
    else specialAppend stl :: below
  else
    if endsOpHere then stl.dropLast :: below
    else stl :: below

/-- The token loop of `paren_reduce`. -/
def parenReduceLoop : List DepNodes → Bool → List String →
    Except DepErr DepNodes
  | stack, need_bracket, [] =>
    if stack.length ≠ 1 ∨ need_bracket then
      .error (.invalidDependString "malformed syntax")
    else .ok (stack.headD .nil)
  | stack, need_bracket, token :: rest =>
    if token = "(" then
      parenReduceLoop (.nil :: stack) false rest
    else if token = ")" then
      if need_bracket then .error (.invalidDependString "malformed syntax")
      else
        match stack with
        | l :: stl :: below =>
          parenReduceLoop (parenReduceClose l stl below) false rest
        | _ => .error (.invalidDependString "malformed syntax")
    else if token = "||" then
      if need_bracket then .error (.invalidDependString "malformed syntax")
      else parenReduceLoop (urPushTop stack (.tok token)) true rest
    else if need_bracket then
      .error (.invalidDependString "malformed syntax")
    else if pyEndsWith token "?" then
      parenReduceLoop (urPushTop stack (.tok token)) true rest
    else
      parenReduceLoop (urPushTop stack (.tok token)) false rest

/-- The function `paren_reduce(mystr)`. -/
def paren_reduce (mystr : String) : Except DepErr DepNodes :=
  parenReduceLoop [.nil] false (pySplit mystr)

/-- The inner `select_subset(dep_struct, disjunction, selected)` of the
`subset` mode: prune branches not reachable under the given flag
subset.  A conditional or `||` token is always followed by a group in
`paren_reduce` output; the impossible other shapes yield the empty
structure. -/
def selectSubset (args : URArgs) (sub : List String) :
    DepNodes → Bool → Bool → Except DepErr DepNodes
  | .nil, _, _ => .ok .nil
  | .cons t rest, disjunction, selected =>
    match t with
    | .grp l =>
      if disjunction then do
        let children ← selectSubset args sub l false selected
        let r ← selectSubset args sub rest disjunction selected
        if ¬ children.isEmpty then pure (.cons (.grp children) r)
        else pure r
      else do
        let children ← selectSubset args sub l false selected
        let r ← selectSubset args sub rest disjunction selected
        pure (children.appendAll r)
    | .atomLeaf _ =>
      if selected then do
        let r ← selectSubset args sub rest disjunction selected
        pure (.cons t r)
      else selectSubset args sub rest disjunction selected
    | .tok s =>
      if pyEndsWith s "?" then
        match rest with
        | .cons ch rest2 =>
          match urIsActive args s with
          | .error e => .error e
          | .ok active =>
            if active then
              match ch with
              | .grp g =>
                if disjunction then do
                  let children ← selectSubset args sub g false
                    (selected || decide (pyDropLast s ∈ sub))
                  let r ← selectSubset args sub rest2 disjunction selected
                  if !children.isEmpty then pure (.cons (.grp children) r)
                  else pure r
                else do
                  let children ← selectSubset args sub g false
                    (selected || decide (pyDropLast s ∈ sub))
                  let r ← selectSubset args sub rest2 disjunction selected
                  pure (children.appendAll r)
              | _ => selectSubset args sub rest2 disjunction selected
            else selectSubset args sub rest2 disjunction selected
        | .nil => .error (.assertionError "conditional at end of structure")
      else if s = "||" then
        match rest with
        | .cons ch rest2 =>
          match ch with
          | .grp g => do
            let children ← selectSubset args sub g true selected
            let r ← selectSubset args sub rest2 disjunction selected
            if !children.isEmpty then
              if disjunction then pure (children.appendAll r)
              else pure (.cons (.tok "||") (.cons (.grp children) r))
            else pure r
          | _ => selectSubset args sub rest2 disjunction selected
        | .nil => .error (.assertionError "any-of at end of structure")
      else if selected then do
        let r ← selectSubset args sub rest disjunction selected
        pure (.cons t r)
      else selectSubset args sub rest disjunction selected
termination_by d _ _ => sizeOf d
decreasing_by all_goals simp_wf <;> omega

/-- The function `paren_enclose(mylist)` (with its default
`unevaluated_atom=False`; inner recursive calls use the default
`opconvert=False` as in the source).  Atom leaves cannot occur on the
embedded call path (the `subset` preprocessing encloses `paren_reduce`
output, which contains only tokens); their rendering delegates to the
cpv text. -/
def parenEncloseParts (opconvert : Bool) : DepNodes → List String
  | .nil => []
  | .cons x rest =>
    let part :=
      match x with
      | .grp g =>
        if opconvert &&
            (match g.headOpt with
             | some d => isOrTok d
             | none => false) then
          "|| ( " ++ String.intercalate " " (parenEncloseParts false g.tailD) ++ " )"
        else
          "( " ++ String.intercalate " " (parenEncloseParts false g) ++ " )"
      | .tok s => s
      | .atomLeaf a => a.cpvStr
    part :: parenEncloseParts opconvert rest
termination_by l => sizeOf l
decreasing_by all_goals (simp_wf <;> cases g <;> simp [DepNodes.tailD] <;> omega)

/-- The function `paren_enclose(mylist, opconvert)`. -/
def paren_enclose (opconvert : Bool) (l : DepNodes) : String :=
  String.intercalate " " (parenEncloseParts opconvert l)

/-- The initial parser state of `_use_reduce_cached`. -/
def urInit : URState :=
  { stack := [.nil], need_bracket := false, need_simple_token := false }

/-- The function `_use_reduce_cached(...)` (its pure value; the
memoization wrapper is modelled separately): validate the mode flags,
apply the `subset` preprocessing when a nonempty subset is given, then
run the token loop. -/
def _use_reduce_cached (args : URArgs) (depstr : String) :
    Except DepErr DepNodes :=
  if args.opconvert ∧ args.flat then
    .error (.valueError "opconvert and flat are mutually exclusive")
  else if args.matchall ∧ args.matchnone then
    .error (.valueError "matchall and matchnone are mutually exclusive")
  else
    let pre : Except DepErr String :=
      match args.subset with
      | some sub =>
        if ¬ sub.isEmpty then
          match paren_reduce depstr with
          | .error e => .error e
          | .ok pr =>
            match selectSubset args sub pr false false with
            | .error e => .error e
            | .ok sel => .ok (paren_enclose false sel)
        else .ok depstr
      | none => .ok depstr
    match pre with
    | .error e => .error e
    | .ok depstr2 => urLoop args urInit (pySplit depstr2)

/-- The function `use_reduce(...)`: the wrapper freezes the sequence
arguments (membership-equivalent to the list model) and returns a copy
of the memoized reduction; this is its pure value, and the copy's
aliasing behaviour is modelled by the store semantics below. -/
def use_reduce (args : URArgs) (depstr : String) : Except DepErr DepNodes :=
  _use_reduce_cached args depstr

/-- True when the whitespace-split token stream contains a `"("` token
immediately followed by `")"`. -/
def hasAdjacentEmptyGroup : List String → Bool
  | [] => false
  | t :: rest =>
    (decide (t = "(") && decide (rest.head? = some ")")) ||
      hasAdjacentEmptyGroup rest

/-- A Python runtime value held in a list cell: a token string, an atom
(immutable), or a reference to another list. -/
inductive PyVal where
  | tok (s : String)
  | atomv (a : Atom)
  | ref (addr : Nat)
deriving DecidableEq

/-- A heap of Python lists, addressed by allocation index. -/
structure Store where
  cells : List (List PyVal)
deriving DecidableEq

/-- Contents of the list at an address. -/
def Store.read (st : Store) (addr : Nat) : List PyVal :=
  (st.cells.get? addr).getD []

/-- Allocate a fresh list. -/
def Store.alloc (st : Store) (l : List PyVal) : Nat × Store :=
  (st.cells.length, ⟨st.cells ++ [l]⟩)

/-- Overwrite the list at an address (a caller-side mutation). -/
def Store.write (st : Store) (addr : Nat) (l : List PyVal) : Store :=
  ⟨st.cells.set addr l⟩

mutual
/-- Materialize a reduction element as a Python value, allocating list
cells for groups. -/
def materializeNode : DepNode → Store → PyVal × Store
  | .tok s, st => (.tok s, st)
  | .atomLeaf a, st => (.atomv a, st)
  | .grp g, st =>
    let p := materializeList g st
    let q := p.2.alloc p.1
    (.ref q.1, q.2)
/-- Materialize a reduction level as a list of Python values. -/
def materializeList : DepNodes → Store → List PyVal × Store
  | .nil, st => ([], st)
  | .cons h t, st =>
    let p := materializeNode h st
    let q := materializeList t p.2
    (p.1 :: q.1, q.2)
end

/-- The memoization key of `use_reduce` (the full argument tuple of
`_use_reduce_cached`; the `is_valid_flag` and `token_class` components
are compared by function identity in Python and are `None` in the
modelled scenarios, so they are fixed to `none` here). -/
structure URKey where
  depstr : String
  uselist : List String := []
  masklist : List String := []
  matchall : Bool := false
  excludeall : List String := []
  is_src_uri : Bool := false
  attrs : EapiAttrs
  opconvert : Bool := false
  flat : Bool := false
  matchnone : Bool := false
  subset : Option (List String) := none
deriving DecidableEq

/-- The argument record a key denotes. -/
def URKey.args (k : URKey) : URArgs :=
  { uselist := k.uselist, masklist := k.masklist, matchall := k.matchall,
    excludeall := k.excludeall, is_src_uri := k.is_src_uri,
    attrs := k.attrs, opconvert := k.opconvert, flat := k.flat,
    is_valid_flag := none, token_class := none,
    matchnone := k.matchnone, subset := k.subset }

/-- The mutable state behind `use_reduce`: the `lru_cache` of
`_use_reduce_cached` (keyed by the full argument tuple, holding the
address of the cached result structure) and the list heap. -/
structure URCacheState where
  cache : List (URKey × Nat)
  store : Store
deriving DecidableEq

/-- One call of `use_reduce` against the cache: on a hit, return
`result[:]` — a freshly allocated shallow copy of the cached top-level
list (sharing every nested sublist); on a miss, compute the reduction,
materialize it as the cached structure, and return the same shallow
copy of it.  Exceptions are not cached. -/
def use_reduce_call (cs : URCacheState) (key : URKey) :
    Except DepErr (Nat × URCacheState) :=
  match cs.cache.lookup key with
  | some root =>
    let p := cs.store.alloc (cs.store.read root)
    .ok (p.1, { cs with store := p.2 })
  | none =>
    match _use_reduce_cached key.args key.depstr with
    | .error e => .error e
    | .ok result =>
      let m := materializeList result cs.store
      let r := m.2.alloc m.1
      let c := r.2.alloc (r.2.read r.1)
      .ok (c.1, { cache := cs.cache ++ [(key, r.1)], store := c.2 })

/-- A concrete comparison primitive used by the witnesses: compare the
embedded natural numbers of two version strings (digits concatenated,
other characters skipped). -/
def natOfStr (s : String) : Nat :=
  s.data.foldl (fun n c => if c.isDigit then n * 10 + (c.toNat - 48) else n) 0

/-- Witness comparison function: a total order on version strings via
their embedded numbers. -/
def vcmpNat (a b : String) : Option Int :=
  some ((natOfStr a : Int) - (natOfStr b : Int))

/-- Lenient EAPI attributes (every feature on), as witnesses use
them. -/
def attrsLenient : EapiAttrs :=
  { empty_groups_always_true := true, required_use_at_most_one_of := true,
    src_uri_arrows := true, selective_src_uri_restriction := true }

/-- Strict EAPI attributes in the sense of EAPI 7+ (`empty_groups_always_true`
off). -/
def attrsStrict : EapiAttrs :=
  { empty_groups_always_true := false, required_use_at_most_one_of := true,
    src_uri_arrows := true, selective_src_uri_restriction := true }

/-- Memoization key of the two-call scenario probing the cache copy:
`use_reduce("|| ( a b )")` with default arguments. -/
def c5Key : URKey := { depstr := "|| ( a b )", attrs := attrsLenient }

/-- The empty cache state. -/
def c5State0 : URCacheState := { cache := [], store := ⟨[]⟩ }

/-- The cache state after the first `use_reduce` call of the scenario:
address 0 holds the nested `( a b )` sublist, address 1 the cached
top-level list, address 2 the shallow copy handed to the caller (its
`ref 0` shares the nested sublist with the cache). -/
def c5State1 : URCacheState :=
  { cache := [(c5Key, 1)],
    store := ⟨[[.tok "a", .tok "b"], [.tok "||", .ref 0],
               [.tok "||", .ref 0]]⟩ }

/-- The scenario state after the caller appends a token to the nested
sublist of its returned copy (mutating address 0 in place). -/
def c5StateNestedMut : URCacheState :=
  { c5State1 with
      store := c5State1.store.write 0 (c5State1.store.read 0 ++ [.tok "evil"]) }

/-- The scenario state after the caller instead appends a token to the
returned top-level list itself (address 2). -/
def c5StateTopMut : URCacheState :=
  { c5State1 with
      store := c5State1.store.write 2 (c5State1.store.read 2 ++ [.tok "evil"]) }

/-- Whether an element is a group. -/
def isGrpB : DepNode → Bool
  | .grp _ => true
  | _ => false

/-- The last element of a level is not a pending `"||"` token. -/
def lastNotOr (l : DepNodes) : Bool :=
  match l.getLastOpt with
  | some (.tok s) => s ≠ "||"
  | _ => true

/-- Shape of levels in a non-opconvert, non-flat reduction: a `"||"`
token occurring before the end of a level is followed by a group, and
every group element recursively satisfies the same shape with no
trailing `"||"`. -/
def lvlOk : DepNodes → Bool
  | .nil => true
  | .cons (.grp g) .nil => lvlOk g && lastNotOr g
  | .cons _ .nil => true
  | .cons (.tok s) (.cons d2 rest) =>
    (if s = "||" then isGrpB d2 else true) && lvlOk (.cons d2 rest)
  | .cons (.grp g) (.cons d2 rest) =>
    lvlOk g && lastNotOr g && lvlOk (.cons d2 rest)
  | .cons (.atomLeaf _) (.cons d2 rest) => lvlOk (.cons d2 rest)

/-- No group occurs in a level (flat-mode levels). -/
def lvlNoGrp : DepNodes → Bool
  | .nil => true
  | .cons (.grp _) _ => false
  | .cons _ t => lvlNoGrp t

/-- Invariant of the `_use_reduce_cached` token loop: in flat mode no
level holds a group; in structured non-opconvert mode every level has
the `lvlOk` shape and, when no bracket is pending, the innermost level
does not end in `"||"`. -/
def URInv (args : URArgs) (st : URState) : Prop :=
  (args.flat = true → ∀ lvl ∈ st.stack, lvlNoGrp lvl = true) ∧
  (args.opconvert = false → args.flat = false →
    (∀ lvl ∈ st.stack, lvlOk lvl = true) ∧
    (st.need_bracket = false ∨ args.is_src_uri = true →
      ∀ top restk, st.stack = top :: restk → lastNotOr top = true))

/-- The origin tags of the three cpv strings the relational tie-break of
`best_match_to_list` sorts; `tieSorted` is that triple in sorted order.
Identity tags stand for Python `is` on the three strings, pairwise
distinct under the pre-checks of the tie-break branch. -/
def tieSorted (vcmp : String → String → Option Int) (a1 a2 : Atom)
    (mypkg : Pkg) : List CpvTag :=
  (stableSortCpv vcmp [(CpvTag.best, a1.versionStr),
    (CpvTag.mypkg, mypkg.version), (CpvTag.chal, a2.versionStr)]).map
    Prod.fst

/-- Default `use_reduce` arguments: an EAPI treating empty groups as
true, no token class, no mode flags. -/
def urA0 : URArgs := { attrs := attrsLenient }

/-- The queried package of the concrete best-match scenarios
(`cat/pkg-2`). -/
def myp : Pkg := { cat := "cat", pkg := "pkg", ver := "2" }

/-- The atom `>=cat/pkg-1`. -/
def aGe1 : Atom := { op := some .ge, cat := "cat", pkg := "pkg", ver := some "1" }

/-- The atom `<=cat/pkg-3`. -/
def aLe3 : Atom := { op := some .le, cat := "cat", pkg := "pkg", ver := some "3" }

/-- The atom `<=cat/pkg-8`. -/
def aLe8 : Atom := { op := some .le, cat := "cat", pkg := "pkg", ver := some "8" }

/-- The atom `<=cat/pkg-9`. -/
def aLe9 : Atom := { op := some .le, cat := "cat", pkg := "pkg", ver := some "9" }

/-- Candidates `cat/pkg-1` and `cat/pkg-2`. -/
def pV1 : Pkg := { cat := "cat", pkg := "pkg", ver := "1" }

def pV2 : Pkg := { cat := "cat", pkg := "pkg", ver := "2" }

/-- Candidates in the repositories `gentoo`, `other` and the unknown
marker. -/
def pRg : Pkg := { cat := "cat", pkg := "pkg", ver := "1", repo := "gentoo" }

def pRo : Pkg := { cat := "cat", pkg := "pkg", ver := "2", repo := "other" }

def pRu : Pkg := { cat := "cat", pkg := "pkg", ver := "3" }

end PortageDep

deriving instance DecidableEq for Except

namespace PortageDep

theorem lvlOk_cons_tail {d : DepNode} {t : DepNodes}
    (h : lvlOk (.cons d t) = true) : lvlOk t = true := by
  cases t with
  | nil => rfl
  | cons d2 rest =>
    cases d with
    | tok s => simp [lvlOk] at h; exact h.2
    | atomLeaf a => simpa [lvlOk] using h
    | grp g => simp [lvlOk] at h; exact h.2

theorem lvlOk_dropLast (l : DepNodes) (h : lvlOk l = true) :
    lvlOk l.dropLast = true :=
  match l, h with
  | .nil, _ => rfl
  | .cons _ .nil, _ => rfl
  | .cons d (.cons d2 rest), h => by
    have ht : lvlOk (DepNodes.cons d2 rest) = true := lvlOk_cons_tail h
    have ih := lvlOk_dropLast (DepNodes.cons d2 rest) ht
    cases rest with
    | nil =>
      cases d with
      | tok s => simp [DepNodes.dropLast, lvlOk]
      | atomLeaf a => simp [DepNodes.dropLast, lvlOk]
      | grp g =>
        simp [lvlOk] at h
        simp [DepNodes.dropLast, lvlOk, h.1]
    | cons d3 rest2 =>
      cases d with
      | tok s =>
        simp [lvlOk] at h
        obtain ⟨h1, h2⟩ := h
        simp [DepNodes.dropLast, lvlOk, h1]
        simpa [DepNodes.dropLast] using ih
      | atomLeaf a =>
        simp [DepNodes.dropLast, lvlOk]
        simpa [DepNodes.dropLast] using ih
      | grp g =>
        simp [lvlOk] at h
        simp [DepNodes.dropLast, lvlOk, h.1]
        simpa [DepNodes.dropLast] using ih

theorem getLastOpt_cons_cons (d d2 : DepNode) (rest : DepNodes) :
    (DepNodes.cons d (.cons d2 rest)).getLastOpt =
      (DepNodes.cons d2 rest).getLastOpt := rfl

theorem lastNotOr_dropLast (l : DepNodes) (d : DepNode)
    (h : lvlOk l = true) (hl : l.getLastOpt = some d) (hg : isGrpB d = false) :
    lastNotOr l.dropLast = true :=
  match l, hl with
  | .cons d0 .nil, hl => by
    simp [DepNodes.dropLast, lastNotOr, DepNodes.getLastOpt]
  | .cons d0 (.cons d2 rest), hl => by
    have ht : lvlOk (DepNodes.cons d2 rest) = true := lvlOk_cons_tail h
    have hl2 : (DepNodes.cons d2 rest).getLastOpt = some d := hl
    have ih := lastNotOr_dropLast (DepNodes.cons d2 rest) d ht hl2 hg
    cases rest with
    | nil =>
      cases hd2 : d2 with
      | tok s2 =>
        cases d0 with
        | tok s =>
          by_cases hs : s = "||"
          · subst hs
            rw [hd2] at h
            simp [lvlOk, isGrpB] at h
          · simp [DepNodes.dropLast, lastNotOr, DepNodes.getLastOpt, hs]
        | atomLeaf a => simp [DepNodes.dropLast, lastNotOr, DepNodes.getLastOpt]
        | grp g => simp [DepNodes.dropLast, lastNotOr, DepNodes.getLastOpt]
      | atomLeaf a2 =>
        cases d0 with
        | tok s =>
          by_cases hs : s = "||"
          · subst hs
            rw [hd2] at h
            simp [lvlOk, isGrpB] at h
          · simp [DepNodes.dropLast, lastNotOr, DepNodes.getLastOpt, hs]
        | atomLeaf a => simp [DepNodes.dropLast, lastNotOr, DepNodes.getLastOpt]
        | grp g => simp [DepNodes.dropLast, lastNotOr, DepNodes.getLastOpt]
      | grp g2 =>
        rw [hd2] at hl2
        simp [DepNodes.getLastOpt] at hl2
        rw [← hl2] at hg
        simp [isGrpB] at hg
    | cons d3 rest2 =>
      cases d0 <;>
        simpa [DepNodes.dropLast, lastNotOr, DepNodes.getLastOpt] using ih

theorem getLastOpt_snoc (l : DepNodes) (y : DepNode) :
    (l.snoc y).getLastOpt = some y :=
  match l with
  | .nil => rfl
  | .cons d .nil => rfl
  | .cons d (.cons d2 rest) => by
    have ih := getLastOpt_snoc (DepNodes.cons d2 rest) y
    simpa [DepNodes.snoc, DepNodes.getLastOpt] using ih

theorem getLastOpt_appendAll (xs ys : DepNodes) (hy : ys.isEmpty = false) :
    (xs.appendAll ys).getLastOpt = ys.getLastOpt :=
  match xs with
  | .nil => by simp [DepNodes.appendAll]
  | .cons d .nil => by
    cases ys with
    | nil => simp [DepNodes.isEmpty] at hy
    | cons y t => simp [DepNodes.appendAll, DepNodes.getLastOpt]
  | .cons d (.cons d2 rest) => by
    have ih := getLastOpt_appendAll (DepNodes.cons d2 rest) ys hy
    cases ys with
    | nil => simp [DepNodes.isEmpty] at hy
    | cons y t =>
      simpa [DepNodes.appendAll, DepNodes.getLastOpt] using ih

theorem snoc_eq_appendAll (xs : DepNodes) (y : DepNode) :
    xs.snoc y = xs.appendAll (.cons y .nil) :=
  match xs with
  | .nil => rfl
  | .cons d t => by
    have ih := snoc_eq_appendAll t y
    simp [DepNodes.snoc, DepNodes.appendAll, ih]

theorem lvlOk_append (xs ys : DepNodes) (hx : lvlOk xs = true)
    (hy : lvlOk ys = true)
    (hj : ys.isEmpty = true ∨ lastNotOr xs = true ∨
      (match ys.headOpt with
       | some d => isGrpB d
       | none => false) = true) :
    lvlOk (xs.appendAll ys) = true :=
  match xs with
  | .nil => by simpa [DepNodes.appendAll] using hy
  | .cons d .nil => by
    cases ys with
    | nil => simpa [DepNodes.appendAll] using hx
    | cons y t =>
      have hj2 : d ≠ DepNode.tok "||" ∨ isGrpB y = true := by
        rcases hj with h | h | h
        · simp [DepNodes.isEmpty] at h
        · left
          intro hd
          rw [hd] at h
          simp [lastNotOr, DepNodes.getLastOpt] at h
        · right
          simpa [DepNodes.headOpt] using h
      cases d with
      | tok s =>
        by_cases hs : s = "||"
        · subst hs
          have hg : isGrpB y = true := by
            rcases hj2 with h | h
            · simp at h
            · exact h
          cases y with
          | grp g =>
            simp [DepNodes.appendAll, lvlOk, isGrpB]
            simpa [lvlOk] using hy
          | tok s2 => simp [isGrpB] at hg
          | atomLeaf a => simp [isGrpB] at hg
        · cases t with
          | nil =>
            cases y <;>
              simp_all [DepNodes.appendAll, lvlOk, hs, DepNodes.headOpt]
          | cons y2 t2 =>
            cases y <;>
              simp_all [DepNodes.appendAll, lvlOk, hs, DepNodes.headOpt]
      | atomLeaf a =>
        simp [DepNodes.appendAll, lvlOk]
        cases t with
        | nil => simpa [lvlOk] using hy
        | cons y2 t2 => simpa [lvlOk] using hy
      | grp g =>
        simp [lvlOk] at hx
        cases t with
        | nil =>
          simp [DepNodes.appendAll, lvlOk, hx.1, hx.2]
          simpa [lvlOk] using hy
        | cons y2 t2 =>
          simp [DepNodes.appendAll, lvlOk, hx.1, hx.2]
          simpa [lvlOk] using hy
  | .cons d (.cons d2 rest) => by
    have ht : lvlOk (DepNodes.cons d2 rest) = true := lvlOk_cons_tail hx
    have hj2 : (DepNodes.cons d2 rest).isEmpty = true ∨
        lastNotOr (DepNodes.cons d2 rest) = true ∨
        (match ys.headOpt with
         | some d => isGrpB d
         | none => false) = true →
        ys.isEmpty = true ∨ lastNotOr (DepNodes.cons d2 rest) = true ∨
        (match ys.headOpt with
         | some d => isGrpB d
         | none => false) = true := fun h => by
      rcases h with h | h | h
      · simp [DepNodes.isEmpty] at h
      · right; left; exact h
      · right; right; exact h
    have hjt : ys.isEmpty = true ∨ lastNotOr (DepNodes.cons d2 rest) = true ∨
        (match ys.headOpt with
         | some d => isGrpB d
         | none => false) = true := by
      rcases hj with h | h | h
      · left; exact h
      · right; left
        simpa [lastNotOr, DepNodes.getLastOpt] using h
      · right; right; exact h
    have ih := lvlOk_append (DepNodes.cons d2 rest) ys ht hy hjt
    cases d with
    | tok s =>
      simp [lvlOk] at hx
      simp [DepNodes.appendAll, lvlOk, hx.1]
      simpa [DepNodes.appendAll] using ih
    | atomLeaf a =>
      simp [DepNodes.appendAll, lvlOk]
      simpa [DepNodes.appendAll] using ih
    | grp g =>
      simp [lvlOk] at hx
      simp [DepNodes.appendAll, lvlOk, hx.1]
      simpa [DepNodes.appendAll] using ih

theorem appendAll_nil (xs : DepNodes) : xs.appendAll .nil = xs :=
  match xs with
  | .nil => rfl
  | .cons d t => by rw [DepNodes.appendAll, appendAll_nil t]

theorem lastNotOr_appendAll (xs ys : DepNodes) (hy : ys.isEmpty = false) :
    lastNotOr (xs.appendAll ys) = lastNotOr ys := by
  simp [lastNotOr, getLastOpt_appendAll xs ys hy]

theorem lastNotOr_appendAll_of (xs ys : DepNodes) (hx : lastNotOr xs = true)
    (hy : lastNotOr ys = true) : lastNotOr (xs.appendAll ys) = true := by
  cases hys : ys.isEmpty with
  | true =>
    cases ys with
    | nil => rw [appendAll_nil]; exact hx
    | cons d t => simp [DepNodes.isEmpty] at hys
  | false => rw [lastNotOr_appendAll xs ys hys]; exact hy

theorem lastNotOr_snoc_grp (xs : DepNodes) (g : DepNodes) :
    lastNotOr (xs.snoc (.grp g)) = true := by
  simp [lastNotOr, getLastOpt_snoc]

theorem lastNotOr_snoc_atom (xs : DepNodes) (a : Atom) :
    lastNotOr (xs.snoc (.atomLeaf a)) = true := by
  simp [lastNotOr, getLastOpt_snoc]

theorem lastNotOr_snoc_tok (xs : DepNodes) (s : String) (hs : s ≠ "||") :
    lastNotOr (xs.snoc (.tok s)) = true := by
  simp [lastNotOr, getLastOpt_snoc, hs]

theorem lvlOk_snoc_grp (xs g : DepNodes) (hx : lvlOk xs = true)
    (hg : lvlOk g = true) (hgn : lastNotOr g = true) :
    lvlOk (xs.snoc (.grp g)) = true := by
  rw [snoc_eq_appendAll]
  refine lvlOk_append xs _ hx ?_ ?_
  · simp [lvlOk, hg, hgn]
  · right; right; simp [DepNodes.headOpt, isGrpB]

theorem lvlOk_snoc_tok (xs : DepNodes) (s : String) (hx : lvlOk xs = true)
    (hxn : lastNotOr xs = true) : lvlOk (xs.snoc (.tok s)) = true := by
  rw [snoc_eq_appendAll]
  refine lvlOk_append xs _ hx ?_ ?_
  · simp [lvlOk]
  · right; left; exact hxn

theorem lvlOk_snoc_atom (xs : DepNodes) (a : Atom) (hx : lvlOk xs = true)
    (hxn : lastNotOr xs = true) : lvlOk (xs.snoc (.atomLeaf a)) = true := by
  rw [snoc_eq_appendAll]
  refine lvlOk_append xs _ hx ?_ ?_
  · simp [lvlOk]
  · right; left; exact hxn

theorem endsInAnyOf_some (s : DepNodes) :
    endsInAnyOf (some s) = !lastNotOr s := by
  unfold endsInAnyOf lastNotOr
  cases h : s.getLastOpt with
  | none => simp [h]
  | some d =>
    cases d with
    | tok s2 => by_cases hs : s2 = "||" <;> simp [h, isOrTok, hs]
    | atomLeaf a => simp [h, isOrTok]
    | grp g => simp [h, isOrTok]

theorem length_eq_one_shape (l : DepNodes) (h : l.length = 1) :
    ∃ d, l = .cons d .nil := by
  cases l with
  | nil => simp [DepNodes.length] at h
  | cons d t =>
    cases t with
    | nil => exact ⟨d, rfl⟩
    | cons d2 r => simp [DepNodes.length] at h

theorem getLastOpt_isSome (d : DepNode) (t : DepNodes) :
    ∃ x, (DepNodes.cons d t).getLastOpt = some x :=
  match t with
  | .nil => ⟨d, rfl⟩
  | .cons d2 r => by
    have ih := getLastOpt_isSome d2 r
    simpa [DepNodes.getLastOpt] using ih

theorem lvlOk_or_pair (l : DepNodes) (h : lvlOk l = true)
    (hh : (match l.headOpt with
           | some d => isOrTok d
           | none => false) = true)
    (hn : l.length = 2) :
    ∃ g, l = .cons (.tok "||") (.cons (.grp g) .nil) ∧
      lvlOk g = true ∧ lastNotOr g = true := by
  cases l with
  | nil => simp [DepNodes.length] at hn
  | cons d t =>
    cases t with
    | nil => simp [DepNodes.length] at hn
    | cons d2 r =>
      cases r with
      | cons d3 r2 => simp [DepNodes.length] at hn
      | nil =>
        cases d with
        | atomLeaf a => simp [DepNodes.headOpt, isOrTok] at hh
        | grp g => simp [DepNodes.headOpt, isOrTok] at hh
        | tok s =>
          have hs : s = "||" := by
            simpa [DepNodes.headOpt, isOrTok] using hh
          subst hs
          cases d2 with
          | grp g =>
            simp [lvlOk, isGrpB] at h
            exact ⟨g, rfl, h.1, h.2⟩
          | tok s2 => simp [lvlOk, isGrpB] at h
          | atomLeaf a => simp [lvlOk, isGrpB] at h

theorem lvlNoGrp_appendQ (xs ys : DepNodes) (hx : lvlNoGrp xs = true)
    (hy : lvlNoGrp ys = true) : lvlNoGrp (xs.appendAll ys) = true :=
  match xs with
  | .nil => by simpa [DepNodes.appendAll] using hy
  | .cons d t => by
    cases d with
    | grp g => simp [lvlNoGrp] at hx
    | tok s =>
      have ih := lvlNoGrp_appendQ t ys (by simpa [lvlNoGrp] using hx) hy
      simpa [DepNodes.appendAll, lvlNoGrp] using ih
    | atomLeaf a =>
      have ih := lvlNoGrp_appendQ t ys (by simpa [lvlNoGrp] using hx) hy
      simpa [DepNodes.appendAll, lvlNoGrp] using ih

theorem lvlNoGrp_dropLast (xs : DepNodes) (h : lvlNoGrp xs = true) :
    lvlNoGrp xs.dropLast = true :=
  match xs with
  | .nil => rfl
  | .cons d .nil => rfl
  | .cons d (.cons d2 r) => by
    have ih := lvlNoGrp_dropLast (DepNodes.cons d2 r)
      (by cases d <;> simpa [lvlNoGrp] using h)
    cases d with
    | grp g => simp [lvlNoGrp] at h
    | tok s => simpa [DepNodes.dropLast, lvlNoGrp] using ih
    | atomLeaf a => simpa [DepNodes.dropLast, lvlNoGrp] using ih

theorem lvlNoGrp_snoc (xs : DepNodes) (y : DepNode) (hx : lvlNoGrp xs = true)
    (hy : isGrpB y = false) : lvlNoGrp (xs.snoc y) = true := by
  rw [snoc_eq_appendAll]
  refine lvlNoGrp_appendQ xs _ hx ?_
  cases y with
  | grp g => simp [isGrpB] at hy
  | tok s => simp [lvlNoGrp]
  | atomLeaf a => simp [lvlNoGrp]

theorem lvlNoGrp_getLast (xs : DepNodes) (d : DepNode)
    (h : lvlNoGrp xs = true) (hd : xs.getLastOpt = some d) :
    isGrpB d = false :=
  match xs, hd with
  | .cons d0 .nil, hd => by
    have hdd : d0 = d := by simpa [DepNodes.getLastOpt] using hd
    rw [← hdd]
    cases d0 with
    | grp g => simp [lvlNoGrp] at h
    | tok s => simp [isGrpB]
    | atomLeaf a => simp [isGrpB]
  | .cons d0 (.cons d2 r), hd =>
    lvlNoGrp_getLast (DepNodes.cons d2 r) d
      (by cases d0 <;> simpa [lvlNoGrp] using h) hd

theorem urIsActiveRes_ok (args : URArgs) (is_negated : Bool) (flag : String) :
    ∃ b, urIsActiveRes args is_negated flag = .ok b := by
  unfold urIsActiveRes
  split_ifs <;> exact ⟨_, rfl⟩

theorem urIsActive_err (args : URArgs) (s : String) (e : DepErr)
    (h : urIsActive args s = .error e) :
    ∃ msg, e = .invalidDependString msg := by
  unfold urIsActive urIsActiveCore at h
  obtain ⟨b, hb⟩ := urIsActiveRes_ok args (urFlagOf s).1 (urFlagOf s).2
  cases hv : args.is_valid_flag with
  | some f =>
    rw [hv, hb] at h
    simp at h
    split_ifs at h
    all_goals simp at h
    exact ⟨_, h.symm⟩
  | none =>
    rw [hv, hb] at h
    simp at h
    split_ifs at h
    all_goals simp at h
    exact ⟨_, h.symm⟩

theorem missingWhiteSpaceErr_IDS (token : String) :
    ∃ msg, missingWhiteSpaceErr token = .invalidDependString msg := by
  unfold missingWhiteSpaceErr
  repeat' split
  all_goals exact ⟨_, rfl⟩

theorem urSpecialAppend_ok_N (args : URArgs) (is_single : Bool)
    (l stl : DepNodes) (below : List DepNodes)
    (hoc : args.opconvert = false)
    (hne : l.isEmpty = false)
    (hl : lvlOk l = true) (hln : lastNotOr l = true)
    (hstl : lvlOk stl = true)
    (hj : is_single = true → lastNotOr stl = true)
    (his : is_single = true →
      l.length = 1 ∨ (l.length = 2 ∧
        (match l.headOpt with
         | some d => isOrTok d
         | none => false) = true)) :
    ∃ stl3, urSpecialAppend args is_single l stl below = .ok stl3 ∧
      lvlOk stl3 = true ∧ lastNotOr stl3 = true := by
  cases is_single with
  | false =>
    refine ⟨stl.snoc (.grp l), ?_, lvlOk_snoc_grp stl l hstl hl hln,
      lastNotOr_snoc_grp stl l⟩
    simp [urSpecialAppend, hoc]
  | true =>
    have hj' := hj rfl
    have his' := his rfl
    by_cases hcond : ((match l.headOpt with
        | some d => isOrTok d
        | none => false) && endsInAnyOf below.head?) = true
    · have hsplit : (match l.headOpt with
          | some d => isOrTok d
          | none => false) = true ∧ endsInAnyOf below.head? = true := by
        have h2 := hcond
        simp only [Bool.and_eq_true] at h2
        exact h2
      have hhead := hsplit.1
      have hup := hsplit.2
      have hlen2 : l.length = 2 := by
        rcases his' with h1 | h2
        · obtain ⟨d, rfl⟩ := length_eq_one_shape l h1
          cases d with
          | tok s =>
            have hs : s = "||" := by
              simpa [DepNodes.headOpt, isOrTok] using hhead
            subst hs
            simp [lastNotOr, DepNodes.getLastOpt] at hln
          | atomLeaf a => simp [DepNodes.headOpt, isOrTok] at hhead
          | grp g => simp [DepNodes.headOpt, isOrTok] at hhead
        · exact h2.1
      obtain ⟨g, rfl, hg, hgn⟩ := lvlOk_or_pair l hl hhead hlen2
      refine ⟨stl.appendAll g, ?_,
        lvlOk_append stl g hstl hg (Or.inr (Or.inl hj')),
        lastNotOr_appendAll_of stl g hj' hgn⟩
      simp [urSpecialAppend, hoc, hup, isOrTok, DepNodes.tailD,
        DepNodes.headOpt]
    · have hcondF : ((match l.headOpt with
          | some d => isOrTok d
          | none => false) && endsInAnyOf below.head?) = false := by
        simpa using hcond
      cases l with
      | nil => simp [DepNodes.isEmpty] at hne
      | cons d t =>
        cases d with
        | grp g =>
          cases t with
          | nil =>
            have hg : lvlOk g = true ∧ lastNotOr g = true := by
              constructor
              · have := hl
                simp [lvlOk] at this
                exact this.1
              · have := hl
                simp [lvlOk] at this
                exact this.2
            cases hlv : lastAnyOfOperatorLevel below with
            | false =>
              refine ⟨stl.appendAll g, ?_,
                lvlOk_append stl g hstl hg.1 (Or.inr (Or.inl hj')),
                lastNotOr_appendAll_of stl g hj' hg.2⟩
              simp [urSpecialAppend, hcondF, hoc, hlv]
            | true =>
              refine ⟨stl.snoc (.grp g), ?_,
                lvlOk_snoc_grp stl g hstl hg.1 hg.2,
                lastNotOr_snoc_grp stl g⟩
              simp [urSpecialAppend, hcondF, hoc, hlv]
          | cons d2 r =>
            refine ⟨stl.appendAll (.cons (.grp g) (.cons d2 r)), ?_,
              lvlOk_append stl _ hstl hl (Or.inr (Or.inl hj')),
              lastNotOr_appendAll_of stl _ hj' hln⟩
            simp [urSpecialAppend, hcondF]
        | tok s =>
          refine ⟨stl.appendAll (.cons (.tok s) t), ?_,
            lvlOk_append stl _ hstl hl (Or.inr (Or.inl hj')),
            lastNotOr_appendAll_of stl _ hj' hln⟩
          cases t with
          | nil => simp [urSpecialAppend, hcondF]
          | cons d2 r => simp [urSpecialAppend, hcondF]
        | atomLeaf a =>
          refine ⟨stl.appendAll (.cons (.atomLeaf a) t), ?_,
            lvlOk_append stl _ hstl hl (Or.inr (Or.inl hj')),
            lastNotOr_appendAll_of stl _ hj' hln⟩
          cases t with
          | nil => simp [urSpecialAppend, hcondF]
          | cons d2 r => simp [urSpecialAppend, hcondF]

theorem urSpecialAppend_ok_O (args : URArgs) (is_single : Bool)
    (l stl : DepNodes) (below : List DepNodes)
    (hoc : args.opconvert = true) :
    ∃ r, urSpecialAppend args is_single l stl below = .ok r := by
  unfold urSpecialAppend
  rw [hoc]
  split
  · split
    · exact ⟨stl.appendAll l.tailD, by simp⟩
    · split
      · split_ifs <;> exact ⟨_, rfl⟩
      · exact ⟨_, rfl⟩
  · split_ifs <;> exact ⟨_, rfl⟩

theorem lastNotOr_false_last (s : DepNodes) (hns : lastNotOr s = false) :
    s.getLastOpt = some (.tok "||") := by
  unfold lastNotOr at hns
  cases hg : s.getLastOpt with
  | none => rw [hg] at hns; simp at hns
  | some d =>
    cases d with
    | tok s2 =>
      rw [hg] at hns
      simp at hns
      rw [hns]
    | atomLeaf a => rw [hg] at hns; simp at hns
    | grp g => rw [hg] at hns; simp at hns

theorem urAppendStage_N (args : URArgs) (is_single : Bool)
    (l2 stl2 : DepNodes) (below : List DepNodes)
    (hoc : args.opconvert = false)
    (hne : l2.isEmpty = false)
    (hl : lvlOk l2 = true) (hln : lastNotOr l2 = true)
    (hstl : lvlOk stl2 = true)
    (his : is_single = true →
      l2.length = 1 ∨ (l2.length = 2 ∧
        (match l2.headOpt with
         | some d => isOrTok d
         | none => false) = true)) :
    ∃ stl3, urAppendStage args is_single l2 stl2 below = .ok (stl3 :: below) ∧
      lvlOk stl3 = true ∧ lastNotOr stl3 = true := by
  have hEH := endsInAnyOf_some stl2
  cases hns : lastNotOr stl2 with
  | true =>
    have hendsHere : endsInAnyOf (some stl2) = false := by
      rw [hEH, hns]; rfl
    cases hup : endsInAnyOf below.head? with
    | false =>
      refine ⟨stl2.appendAll l2, ?_,
        lvlOk_append stl2 l2 hstl hl (Or.inr (Or.inl hns)),
        lastNotOr_appendAll_of stl2 l2 hns hln⟩
      simp [urAppendStage, hup, hendsHere]
    | true =>
      cases hse : stl2.isEmpty with
      | true =>
        obtain ⟨stl3, hsa, hok, hnor⟩ :=
          urSpecialAppend_ok_N args is_single l2 stl2 below hoc hne hl hln hstl
            (fun _ => hns) his
        exact ⟨stl3, by simp [urAppendStage, hup, hendsHere, hse, hsa],
          hok, hnor⟩
      | false =>
        obtain ⟨stl3, hsa, hok, hnor⟩ :=
          urSpecialAppend_ok_N args is_single l2 stl2 below hoc hne hl hln hstl
            (fun _ => hns) his
        exact ⟨stl3, by simp [urAppendStage, hup, hendsHere, hse, hoc, hsa],
          hok, hnor⟩
  | false =>
    have hendsHere : endsInAnyOf (some stl2) = true := by
      rw [hEH, hns]; rfl
    have hlast : stl2.getLastOpt = some (.tok "||") :=
      lastNotOr_false_last stl2 hns
    have hndl : lastNotOr stl2.dropLast = true :=
      lastNotOr_dropLast stl2 (.tok "||") hstl hlast (by simp [isGrpB])
    have hodl : lvlOk stl2.dropLast = true := lvlOk_dropLast stl2 hstl
    have hse : stl2.isEmpty = false := by
      cases stl2 with
      | nil => simp [DepNodes.getLastOpt] at hlast
      | cons d t => rfl
    cases is_single with
    | true =>
      obtain ⟨stl3, hsa, hok, hnor⟩ :=
        urSpecialAppend_ok_N args true l2 stl2.dropLast below hoc hne hl hln
          hodl (fun _ => hndl) (fun _ => his rfl)
      exact ⟨stl3, by simp [urAppendStage, hendsHere, hse, hsa], hok, hnor⟩
    | false =>
      cases hup : endsInAnyOf below.head? with
      | true =>
        refine ⟨stl2.dropLast.appendAll l2, ?_,
          lvlOk_append _ l2 hodl hl (Or.inr (Or.inl hndl)),
          lastNotOr_appendAll_of _ l2 hndl hln⟩
        simp [urAppendStage, hendsHere, hse, hup]
      | false =>
        obtain ⟨stl3, hsa, hok, hnor⟩ :=
          urSpecialAppend_ok_N args false l2 stl2 below hoc hne hl hln hstl
            (fun h => nomatch h) (fun h => nomatch h)
        exact ⟨stl3, by simp [urAppendStage, hendsHere, hse, hup, hoc, hsa],
          hok, hnor⟩

theorem urCloseParen_N (args : URArgs) (l stl : DepNodes)
    (below : List DepNodes)
    (hoc : args.opconvert = false) (hflat : args.flat = false)
    (htc : ∀ tc, args.token_class = some tc →
      ∃ a, tc "__const__/empty-any-of" = .ok a)
    (hl : lvlOk l = true) (hln : lastNotOr l = true)
    (hstl : lvlOk stl = true) :
    (∃ msg, urCloseParen args l stl below =
        .error (.invalidDependString msg)) ∨
    (∃ stl3, urCloseParen args l stl below = .ok (stl3 :: below) ∧
      lvlOk stl3 = true ∧ lastNotOr stl3 = true) := by
  cases hg : stl.getLastOpt with
  | none =>
    have hstlnil : stl = .nil := by
      cases stl with
      | nil => rfl
      | cons d t =>
        obtain ⟨x, hx⟩ := getLastOpt_isSome d t
        rw [hx] at hg
        cases hg
    subst hstlnil
    cases hle : l.isEmpty with
    | true =>
      right
      refine ⟨.nil, ?_, rfl, rfl⟩
      simp [urCloseParen, hflat, hg, hle]
    | false =>
      right
      simp only [urCloseParen, hflat]
      simp [hg, hle]
      refine urAppendStage_N args _ l .nil below hoc hle hl hln rfl ?_
      intro hh
      rw [hoc] at hh
      simp at hh
      first
        | (rcases hh with h1 | h1
           · exact Or.inl h1
           · exact Or.inr h1)
        | exact Or.inl hh
        | exact Or.inr hh
  | some d =>
    cases d with
    | grp g =>
      cases hle : l.isEmpty with
      | true =>
        right
        refine ⟨stl, ?_, hstl, ?_⟩
        · simp [urCloseParen, hflat, hg, hle, isStrLike]
        · unfold lastNotOr
          rw [hg]
      | false =>
        right
        simp [urCloseParen, hflat, hg, hle, isStrLike]
        refine urAppendStage_N args _ l stl below hoc hle hl hln hstl ?_
        intro hh
        rw [hoc] at hh
        simp at hh
        first
          | (rcases hh with h1 | h1
             · exact Or.inl h1
             · exact Or.inr h1)
          | exact Or.inl hh
          | exact Or.inr hh
    | atomLeaf a =>
      cases hle : l.isEmpty with
      | true =>
        right
        refine ⟨stl, ?_, hstl, ?_⟩
        · simp [urCloseParen, hflat, hg, hle, isStrLike, isOrTok, lastIsQmark]
        · unfold lastNotOr
          rw [hg]
      | false =>
        right
        simp [urCloseParen, hflat, hg, hle, isStrLike, isOrTok, lastIsQmark]
        refine urAppendStage_N args _ l stl below hoc hle hl hln hstl ?_
        intro hh
        rw [hoc] at hh
        simp at hh
        first
          | (rcases hh with h1 | h1
             · exact Or.inl h1
             · exact Or.inr h1)
          | exact Or.inl hh
          | exact Or.inr hh
    | tok s =>
      by_cases hq : pyEndsWith s "?" = true
      · have hsor : s ≠ "||" := by
          intro hcontra
          subst hcontra
          rw [show pyEndsWith "||" "?" = false from by decide] at hq
          cases hq
        have hdl1 : lvlOk stl.dropLast = true := lvlOk_dropLast stl hstl
        have hdl2 : lastNotOr stl.dropLast = true :=
          lastNotOr_dropLast stl (.tok s) hstl hg (by simp [isGrpB])
        rcases ha : urIsActive args s with e | active
        · left
          obtain ⟨msg, hmsg⟩ := urIsActive_err args s e ha
          subst hmsg
          refine ⟨msg, ?_⟩
          simp [urCloseParen, hflat, hg, hq, ha, isStrLike, isOrTok, hsor,
            lastIsQmark]
        · cases active with
          | false =>
            right
            refine ⟨stl.dropLast, ?_, hdl1, hdl2⟩
            simp [urCloseParen, hflat, hg, hq, ha, isStrLike, isOrTok, hsor,
              lastIsQmark]
          | true =>
            cases hle : l.isEmpty with
            | true =>
              right
              refine ⟨stl.dropLast, ?_, hdl1, hdl2⟩
              simp [urCloseParen, hflat, hg, hq, ha, isStrLike, isOrTok, hsor,
                lastIsQmark, hle]
            | false =>
              right
              simp [urCloseParen, hflat, hg, hq, ha, isStrLike, isOrTok, hsor,
                lastIsQmark, hle]
              refine urAppendStage_N args _ l stl.dropLast below hoc hle hl hln
                hdl1 ?_
              intro hh
              rw [hoc] at hh
              simp at hh
              first
                | (rcases hh with h1 | h1
                   · exact Or.inl h1
                   · exact Or.inr h1)
                | exact Or.inl hh
                | exact Or.inr hh
      · by_cases hsor : s = "||"
        · subst hsor
          have hdl1 : lvlOk stl.dropLast = true := lvlOk_dropLast stl hstl
          have hdl2 : lastNotOr stl.dropLast = true :=
            lastNotOr_dropLast stl (.tok "||") hstl hg (by simp [isGrpB])
          cases hle : l.isEmpty with
          | true =>
            have hlnil : l = .nil := by
              cases l with
              | nil => rfl
              | cons d t => simp [DepNodes.isEmpty] at hle
            subst hlnil
            cases hegat : args.attrs.empty_groups_always_true with
            | true =>
              right
              refine ⟨stl.dropLast, ?_, hdl1, hdl2⟩
              simp [urCloseParen, hflat, hg, isStrLike, isOrTok, hegat,
                DepNodes.isEmpty]
            | false =>
              cases htcv : args.token_class with
              | none =>
                right
                simp [urCloseParen, hflat, hg, isStrLike, isOrTok, hegat, htcv]
                refine urAppendStage_N args _ _ stl.dropLast below hoc rfl rfl
                  (by decide) hdl1 (fun _ => Or.inl rfl)
              | some tc =>
                obtain ⟨a, hta⟩ := htc tc htcv
                right
                simp [urCloseParen, hflat, hg, isStrLike, isOrTok, hegat, htcv,
                  hta]
                refine urAppendStage_N args _ _ stl.dropLast below hoc rfl rfl
                  (by simp [lastNotOr, DepNodes.single, DepNodes.getLastOpt])
                  hdl1 (fun _ => Or.inl rfl)
          | false =>
            right
            simp [urCloseParen, hflat, hg, isStrLike, isOrTok, hle, hq,
              lastIsQmark]
            refine urAppendStage_N args _ l stl below hoc hle hl hln hstl ?_
            intro hh
            rw [hoc] at hh
            simp at hh
            first
              | (rcases hh with h1 | h1
                 · exact Or.inl h1
                 · exact Or.inr h1)
              | exact Or.inl hh
              | exact Or.inr hh
        · have hlno : lastNotOr stl = true := by
            unfold lastNotOr
            rw [hg]
            simp [hsor]
          cases hle : l.isEmpty with
          | true =>
            right
            refine ⟨stl, ?_, hstl, hlno⟩
            simp [urCloseParen, hflat, hg, hle, isStrLike, isOrTok, hsor, hq,
              lastIsQmark]
          | false =>
            right
            simp [urCloseParen, hflat, hg, hle, isStrLike, isOrTok, hsor, hq,
              lastIsQmark]
            refine urAppendStage_N args _ l stl below hoc hle hl hln hstl ?_
            intro hh
            rw [hoc] at hh
            simp at hh
            first
              | (rcases hh with h1 | h1
                 · exact Or.inl h1
                 · exact Or.inr h1)
              | exact Or.inl hh
              | exact Or.inr hh

theorem urCloseParen_F (args : URArgs) (l stl : DepNodes)
    (below : List DepNodes) (hflat : args.flat = true)
    (hl : lvlNoGrp l = true) (hstl : lvlNoGrp stl = true) :
    (∃ msg, urCloseParen args l stl below =
        .error (.invalidDependString msg)) ∨
    (∃ stl3, urCloseParen args l stl below = .ok (stl3 :: below) ∧
      lvlNoGrp stl3 = true) := by
  cases hg : stl.getLastOpt with
  | none =>
    right
    refine ⟨stl.appendAll l, ?_, lvlNoGrp_appendQ stl l hstl hl⟩
    simp [urCloseParen, hflat, hg]
  | some d =>
    cases hq : lastIsQmark d with
    | false =>
      right
      refine ⟨stl.appendAll l, ?_, lvlNoGrp_appendQ stl l hstl hl⟩
      simp [urCloseParen, hflat, hg, hq]
    | true =>
      cases d with
      | grp g =>
        have hgl := lvlNoGrp_getLast stl (.grp g) hstl hg
        simp [isGrpB] at hgl
      | atomLeaf a => simp [lastIsQmark] at hq
      | tok s =>
        rcases ha : urIsActive args s with e | active
        · left
          obtain ⟨msg, hmsg⟩ := urIsActive_err args s e ha
          subst hmsg
          exact ⟨msg, by simp [urCloseParen, hflat, hg, hq, ha]⟩
        · cases active with
          | true =>
            right
            refine ⟨stl.dropLast.appendAll l, ?_,
              lvlNoGrp_appendQ _ l (lvlNoGrp_dropLast stl hstl) hl⟩
            simp [urCloseParen, hflat, hg, hq, ha]
          | false =>
            right
            refine ⟨stl.dropLast, ?_, lvlNoGrp_dropLast stl hstl⟩
            simp [urCloseParen, hflat, hg, hq, ha]

theorem urAppendStage_O (args : URArgs) (is_single : Bool)
    (l2 stl2 : DepNodes) (below : List DepNodes)
    (hoc : args.opconvert = true) :
    ∃ stl3, urAppendStage args is_single l2 stl2 below =
      .ok (stl3 :: below) := by
  obtain ⟨r1, hr1⟩ := urSpecialAppend_ok_O args is_single l2 stl2 below hoc
  obtain ⟨r2, hr2⟩ :=
    urSpecialAppend_ok_O args is_single l2 stl2.dropLast below hoc
  unfold urAppendStage
  split_ifs <;> first
    | exact ⟨_, rfl⟩
    | (rw [hr1]; exact ⟨_, rfl⟩)
    | (rw [hr2]; exact ⟨_, rfl⟩)

theorem urCloseParen_O (args : URArgs) (l stl : DepNodes)
    (below : List DepNodes)
    (hoc : args.opconvert = true) (hflat : args.flat = false)
    (htc : ∀ tc, args.token_class = some tc →
      ∃ a, tc "__const__/empty-any-of" = .ok a) :
    (∃ msg, urCloseParen args l stl below =
        .error (.invalidDependString msg)) ∨
    (∃ stl3, urCloseParen args l stl below = .ok (stl3 :: below)) := by
  cases hg : stl.getLastOpt with
  | none =>
    cases hle : l.isEmpty with
    | true =>
      right
      exact ⟨stl, by simp [urCloseParen, hflat, hg, hle]⟩
    | false =>
      right
      simp [urCloseParen, hflat, hg, hle]
      exact urAppendStage_O args _ l stl below hoc
  | some d =>
    cases d with
    | grp g =>
      cases hle : l.isEmpty with
      | true =>
        right
        exact ⟨stl, by simp [urCloseParen, hflat, hg, hle, isStrLike]⟩
      | false =>
        right
        simp [urCloseParen, hflat, hg, hle, isStrLike]
        exact urAppendStage_O args _ l stl below hoc
    | atomLeaf a =>
      cases hle : l.isEmpty with
      | true =>
        right
        exact ⟨stl, by simp [urCloseParen, hflat, hg, hle, isStrLike, isOrTok,
          lastIsQmark]⟩
      | false =>
        right
        simp [urCloseParen, hflat, hg, hle, isStrLike, isOrTok, lastIsQmark]
        exact urAppendStage_O args _ l stl below hoc
    | tok s =>
      by_cases hq : pyEndsWith s "?" = true
      · have hsor : s ≠ "||" := by
          intro hcontra
          subst hcontra
          rw [show pyEndsWith "||" "?" = false from by decide] at hq
          cases hq
        rcases ha : urIsActive args s with e | active
        · left
          obtain ⟨msg, hmsg⟩ := urIsActive_err args s e ha
          subst hmsg
          exact ⟨msg, by simp [urCloseParen, hflat, hg, hq, ha, isStrLike,
            isOrTok, hsor, lastIsQmark]⟩
        · cases active with
          | false =>
            right
            exact ⟨stl.dropLast, by simp [urCloseParen, hflat, hg, hq, ha,
              isStrLike, isOrTok, hsor, lastIsQmark]⟩
          | true =>
            cases hle : l.isEmpty with
            | true =>
              right
              exact ⟨stl.dropLast, by simp [urCloseParen, hflat, hg, hq, ha,
                isStrLike, isOrTok, hsor, lastIsQmark, hle]⟩
            | false =>
              right
              simp [urCloseParen, hflat, hg, hq, ha, isStrLike, isOrTok, hsor,
                lastIsQmark, hle]
              exact urAppendStage_O args _ l stl.dropLast below hoc
      · by_cases hsor : s = "||"
        · subst hsor
          cases hle : l.isEmpty with
          | true =>
            have hlnil : l = .nil := by
              cases l with
              | nil => rfl
              | cons d t => simp [DepNodes.isEmpty] at hle
            subst hlnil
            cases hegat : args.attrs.empty_groups_always_true with
            | true =>
              right
              exact ⟨stl.dropLast, by simp [urCloseParen, hflat, hg, isStrLike,
                isOrTok, hegat, DepNodes.isEmpty]⟩
            | false =>
              cases htcv : args.token_class with
              | none =>
                right
                simp [urCloseParen, hflat, hg, isStrLike, isOrTok, hegat, htcv]
                exact urAppendStage_O args _ _ stl.dropLast below hoc
              | some tc =>
                obtain ⟨a, hta⟩ := htc tc htcv
                right
                simp [urCloseParen, hflat, hg, isStrLike, isOrTok, hegat, htcv,
                  hta]
                exact urAppendStage_O args _ _ stl.dropLast below hoc
          | false =>
            right
            simp [urCloseParen, hflat, hg, isStrLike, isOrTok, hle, hq,
              lastIsQmark]
            exact urAppendStage_O args _ l stl below hoc
        · cases hle : l.isEmpty with
          | true =>
            right
            exact ⟨stl, by simp [urCloseParen, hflat, hg, hle, isStrLike,
              isOrTok, hsor, hq, lastIsQmark]⟩
          | false =>
            right
            simp [urCloseParen, hflat, hg, hle, isStrLike, isOrTok, hsor, hq,
              lastIsQmark]
            exact urAppendStage_O args _ l stl below hoc

theorem hadj_cons (t : String) (rest : List String)
    (h : hasAdjacentEmptyGroup (t :: rest) = true) :
    (t = "(" ∧ rest.head? = some ")") ∨
      hasAdjacentEmptyGroup rest = true := by
  simp [hasAdjacentEmptyGroup] at h
  exact h

theorem lvlOk_snoc_nongrp (xs : DepNodes) (d : DepNode)
    (hd : isGrpB d = false) (hx : lvlOk xs = true)
    (hxn : lastNotOr xs = true) : lvlOk (xs.snoc d) = true := by
  cases d with
  | grp g => simp [isGrpB] at hd
  | tok s => exact lvlOk_snoc_tok xs s hx hxn
  | atomLeaf a => exact lvlOk_snoc_atom xs a hx hxn

theorem lastNotOr_snoc_nongrpOr (xs : DepNodes) (d : DepNode)
    (hdor : d ≠ .tok "||") : lastNotOr (xs.snoc d) = true := by
  cases d with
  | grp g => exact lastNotOr_snoc_grp xs g
  | atomLeaf a => exact lastNotOr_snoc_atom xs a
  | tok s =>
    refine lastNotOr_snoc_tok xs s ?_
    intro hcontra
    exact hdor (by rw [hcontra])

theorem lvlNoGrp_single (d : DepNode) (hd : isGrpB d = false) :
    lvlNoGrp (.cons d .nil) = true := by
  cases d with
  | grp g => simp [isGrpB] at hd
  | tok s => rfl
  | atomLeaf a => rfl

theorem lvlOk_single (d : DepNode) (hd : isGrpB d = false) :
    lvlOk (.cons d .nil) = true := by
  cases d with
  | grp g => simp [isGrpB] at hd
  | tok s => rfl
  | atomLeaf a => rfl

theorem URInv_push (args : URArgs) (st : URState) (d : DepNode)
    (nb2 nst2 : Bool)
    (hinv : URInv args st)
    (hnb : st.need_bracket = false ∨ args.is_src_uri = true)
    (hd : isGrpB d = false)
    (hdor : nb2 = false ∨ args.is_src_uri = true → d ≠ .tok "||") :
    URInv args { stack := urPushTop st.stack d, need_bracket := nb2,
                 need_simple_token := nst2 } := by
  obtain ⟨hF, hN⟩ := hinv
  constructor
  · intro hflat lvl hmem
    cases hstk : st.stack with
    | nil =>
      rw [hstk] at hmem
      simp [urPushTop] at hmem
      subst hmem
      exact lvlNoGrp_single d hd
    | cons top restk =>
      rw [hstk] at hmem
      simp [urPushTop] at hmem
      rcases hmem with rfl | hmem
      · exact lvlNoGrp_snoc top d
          (hF hflat top (by rw [hstk]; exact List.mem_cons_self _ _)) hd
      · exact hF hflat lvl (by rw [hstk]; exact List.mem_cons_of_mem _ hmem)
  · intro hocf hflatf
    obtain ⟨hNok, hNnb⟩ := hN hocf hflatf
    constructor
    · intro lvl hmem
      cases hstk : st.stack with
      | nil =>
        rw [hstk] at hmem
        simp [urPushTop] at hmem
        subst hmem
        exact lvlOk_single d hd
      | cons top restk =>
        rw [hstk] at hmem
        simp [urPushTop] at hmem
        rcases hmem with rfl | hmem
        · exact lvlOk_snoc_nongrp top d hd
            (hNok top (by rw [hstk]; exact List.mem_cons_self _ _))
            (hNnb hnb top restk hstk)
        · exact hNok lvl (by rw [hstk]; exact List.mem_cons_of_mem _ hmem)
    · intro hnb2 top2 rest2 hstk2
      simp only at hstk2
      cases hstk : st.stack with
      | nil =>
        rw [hstk] at hstk2
        simp [urPushTop] at hstk2
        obtain ⟨h1, h2⟩ := hstk2
        rw [← h1]
        cases d with
        | grp g => simp [isGrpB] at hd
        | atomLeaf a => rfl
        | tok s =>
          have : (DepNode.tok s) ≠ .tok "||" := hdor hnb2
          simp [lastNotOr, DepNodes.single, DepNodes.getLastOpt]
          intro hcontra
          exact this (by rw [hcontra])
      | cons top restk =>
        rw [hstk] at hstk2
        simp [urPushTop] at hstk2
        obtain ⟨h1, h2⟩ := hstk2
        rw [← h1]
        exact lastNotOr_snoc_nongrpOr top d (hdor hnb2)

theorem urLoop_shape (args : URArgs)
    (htc : ∀ tc, args.token_class = some tc →
      ∃ a, tc "__const__/empty-any-of" = .ok a)
    (hwf : ∀ tc t a, args.token_class = some tc → tc t = .ok a →
      args.matchall = false → a.evaluate_conditionals args.uselist ≠ none) :
    ∀ toks st, URInv args st →
      (∃ r, urLoop args st toks = .ok r) ∨
      (∃ msg, urLoop args st toks = .error (.invalidDependString msg))
  | [], st, hinv => by
    simp only [urLoop]
    split_ifs
    · right; exact ⟨_, rfl⟩
    · right; exact ⟨_, rfl⟩
    · right; exact ⟨_, rfl⟩
    · left; exact ⟨_, rfl⟩
  | token :: rest, st, hinv => by
    simp only [urLoop]
    by_cases h1 : token = "("
    · rw [if_pos h1]
      cases hnst : st.need_simple_token with
      | true =>
        rw [if_pos rfl]
        right; exact ⟨_, rfl⟩
      | false =>
        rw [if_neg (by simp)]
        by_cases h2 : rest.head? = some ")"
        · rw [if_pos h2]
          right; exact ⟨_, rfl⟩
        · rw [if_neg h2]
          refine urLoop_shape args htc hwf rest _ ?_
          obtain ⟨hF, hN⟩ := hinv
          constructor
          · intro hflat lvl hmem
            rcases List.mem_cons.mp hmem with rfl | hmem
            · rfl
            · exact hF hflat lvl hmem
          · intro hoc hfl
            obtain ⟨hNok, hNnb⟩ := hN hoc hfl
            refine ⟨?_, ?_⟩
            · intro lvl hmem
              rcases List.mem_cons.mp hmem with rfl | hmem
              · rfl
              · exact hNok lvl hmem
            · intro _ top restk hstk
              simp only at hstk
              rw [← (List.cons.injEq _ _ _ _).mp hstk |>.1]
              rfl
    · rw [if_neg h1]
      by_cases h2 : token = ")"
      · rw [if_pos h2]
        cases hnb : st.need_bracket with
        | true =>
          rw [if_pos rfl]
          right; exact ⟨_, rfl⟩
        | false =>
          rw [if_neg (by simp)]
          cases hnst : st.need_simple_token with
          | true =>
            rw [if_pos rfl]
            right; exact ⟨_, rfl⟩
          | false =>
            rw [if_neg (by simp)]
            cases hstk : st.stack with
            | nil =>
              simp only [hstk]
              right; exact ⟨_, rfl⟩
            | cons l tl =>
              cases tl with
              | nil =>
                simp only [hstk]
                right; exact ⟨_, rfl⟩
              | cons stl below =>
                simp only [hstk]
                cases hflat : args.flat with
                | true =>
                  obtain ⟨hF, hN⟩ := hinv
                  have hFl := hF hflat
                  have h_l := hFl l (by rw [hstk]; exact List.mem_cons_self _ _)
                  have h_stl := hFl stl (by
                    rw [hstk]
                    exact List.mem_cons_of_mem _ (List.mem_cons_self _ _))
                  rcases urCloseParen_F args l stl below hflat h_l h_stl with
                    ⟨msg, hcp⟩ | ⟨stl3, hcp, hok3⟩
                  · rw [hcp]
                    right; exact ⟨msg, rfl⟩
                  · rw [hcp]
                    refine urLoop_shape args htc hwf rest _ ?_
                    constructor
                    · intro _ lvl hmem
                      rcases List.mem_cons.mp hmem with rfl | hmem
                      · exact hok3
                      · exact hFl lvl (by
                          rw [hstk]
                          exact List.mem_cons_of_mem _
                            (List.mem_cons_of_mem _ hmem))
                    · intro _ hfl
                      rw [hfl] at hflat
                      cases hflat
                | false =>
                  cases hoc : args.opconvert with
                  | true =>
                    rcases urCloseParen_O args l stl below hoc hflat htc with
                      ⟨msg, hcp⟩ | ⟨stl3, hcp⟩
                    · rw [hcp]
                      right; exact ⟨msg, rfl⟩
                    · rw [hcp]
                      refine urLoop_shape args htc hwf rest _ ?_
                      constructor
                      · intro hfl
                        rw [hfl] at hflat
                        cases hflat
                      · intro hocf _
                        rw [hocf] at hoc
                        cases hoc
                  | false =>
                    obtain ⟨hF, hN⟩ := hinv
                    obtain ⟨hNok, hNnb⟩ := hN hoc hflat
                    have h_l := hNok l (by
                      rw [hstk]; exact List.mem_cons_self _ _)
                    have h_stl := hNok stl (by
                      rw [hstk]
                      exact List.mem_cons_of_mem _ (List.mem_cons_self _ _))
                    have h_ln := hNnb (Or.inl hnb) l (stl :: below) hstk
                    rcases urCloseParen_N args l stl below hoc hflat htc h_l
                        h_ln h_stl with
                      ⟨msg, hcp⟩ | ⟨stl3, hcp, hok3, hnor3⟩
                    · rw [hcp]
                      right; exact ⟨msg, rfl⟩
                    · rw [hcp]
                      refine urLoop_shape args htc hwf rest _ ?_
                      constructor
                      · intro hfl
                        rw [hfl] at hflat
                        cases hflat
                      · intro _ _
                        refine ⟨?_, ?_⟩
                        · intro lvl hmem
                          rcases List.mem_cons.mp hmem with rfl | hmem
                          · exact hok3
                          · exact hNok lvl (by
                              rw [hstk]
                              exact List.mem_cons_of_mem _
                                (List.mem_cons_of_mem _ hmem))
                        · intro _ top2 r2 hstk2
                          simp only at hstk2
                          rw [← (List.cons.injEq _ _ _ _).mp hstk2 |>.1]
                          exact hnor3
      · rw [if_neg h2]
        by_cases h3 : token = "||"
        · rw [if_pos h3]
          cases hsrc : args.is_src_uri with
          | true =>
            rw [if_pos rfl]
            right; exact ⟨_, rfl⟩
          | false =>
            rw [if_neg (by simp)]
            cases hnb : st.need_bracket with
            | true =>
              rw [if_pos rfl]
              right; exact ⟨_, rfl⟩
            | false =>
              rw [if_neg (by simp)]
              refine urLoop_shape args htc hwf rest _
                (URInv_push args st (.tok "||") true st.need_simple_token hinv
                  (Or.inl hnb) (by simp [isGrpB]) ?_)
              intro hcond
              rcases hcond with hcond | hcond
              · cases hcond
              · rw [hcond] at hsrc
                cases hsrc
        · rw [if_neg h3]
          by_cases h4 : token = "->"
          · rw [if_pos h4]
            cases hnst : st.need_simple_token with
            | true =>
              rw [if_pos rfl]
              right; exact ⟨_, rfl⟩
            | false =>
              rw [if_neg (by simp)]
              by_cases hsrc : args.is_src_uri = true
              · rw [if_neg (by simp [hsrc])]
                by_cases harrow : args.attrs.src_uri_arrows = true
                · rw [if_neg (by simp [harrow])]
                  refine urLoop_shape args htc hwf rest _
                    (URInv_push args st (.tok "->") st.need_bracket true hinv
                      (Or.inr hsrc) (by simp [isGrpB]) ?_)
                  intro _ hcontra
                  have h5 : "->" = "||" := DepNode.tok.inj hcontra
                  exact absurd h5 (by decide)
                · rw [if_pos (by simp [harrow])]
                  right; exact ⟨_, rfl⟩
              · rw [if_pos hsrc]
                right; exact ⟨_, rfl⟩
          · rw [if_neg h4]
            cases hnb : st.need_bracket with
            | true =>
              rw [if_pos rfl]
              right; exact ⟨_, rfl⟩
            | false =>
              rw [if_neg (by simp)]
              by_cases h5 : st.need_simple_token = true ∧
                  pyInStr "/" token = true
              · rw [if_pos h5]
                right; exact ⟨_, rfl⟩
              · rw [if_neg h5]
                have hdorTok : ∀ nbx : Bool,
                    nbx = false ∨ args.is_src_uri = true →
                    DepNode.tok token ≠ .tok "||" := by
                  intro nbx _ hcontra
                  exact h3 (DepNode.tok.inj hcontra)
                by_cases hq : pyEndsWith token "?" = true
                · rw [if_pos hq]
                  refine urLoop_shape args htc hwf rest _
                    (URInv_push args st (.tok token) true st.need_simple_token
                      hinv (Or.inl hnb) (by simp [isGrpB]) (hdorTok true))
                · rw [if_neg hq]
                  cases hsrc : args.is_src_uri with
                  | true =>
                    rw [if_pos rfl]
                    by_cases hsel : ¬ args.attrs.selective_src_uri_restriction
                        = true ∧ (pyStartsWith token "fetch+" = true ∨
                          pyStartsWith token "mirror+" = true)
                    · rw [if_pos hsel]
                      right; exact ⟨_, rfl⟩
                    · rw [if_neg hsel]
                      refine urLoop_shape args htc hwf rest _
                        (URInv_push args st (.tok token) false false
                          hinv (Or.inl hnb) (by simp [isGrpB])
                          (hdorTok false))
                  | false =>
                    rw [if_neg (by simp)]
                    cases htcv : args.token_class with
                    | none =>
                      refine urLoop_shape args htc hwf rest _
                        (URInv_push args st (.tok token) false false
                          hinv (Or.inl hnb) (by simp [isGrpB])
                          (hdorTok false))
                    | some tc =>
                      rcases hta : tc token with e | a
                      · obtain ⟨msg, hm⟩ := missingWhiteSpaceErr_IDS token
                        right
                        exact ⟨msg, by simp [hta, hm]⟩
                      · cases hma : args.matchall with
                        | true =>
                          simp only [hta]
                          rw [if_pos trivial]
                          exact urLoop_shape args htc hwf rest _
                            (URInv_push args st (.atomLeaf a) false
                              false hinv (Or.inl hnb) (by simp [isGrpB])
                              (fun _ => by simp))
                        | false =>
                          simp only [hta]
                          rw [if_neg (by simp)]
                          rcases hev : a.evaluate_conditionals args.uselist
                            with _ | a2
                          · exact absurd hev (hwf tc token a htcv hta hma)
                          · exact urLoop_shape args htc hwf rest _
                              (URInv_push args st (.atomLeaf a2)
                                false false hinv (Or.inl hnb)
                                (by simp [isGrpB]) (fun _ => by simp))

theorem urLoop_adj_fail (args : URArgs) :
    ∀ toks st, hasAdjacentEmptyGroup toks = true →
      ∀ r, urLoop args st toks ≠ .ok r
  | [], st, hadj => by simp [hasAdjacentEmptyGroup] at hadj
  | token :: rest, st, hadj => by
    intro r hok
    simp only [urLoop] at hok
    rcases hadj_cons token rest hadj with ⟨ht, hh⟩ | hrest
    · subst ht
      rw [if_pos rfl] at hok
      by_cases hnst : st.need_simple_token = true
      · rw [if_pos hnst] at hok
        simp at hok
      · rw [if_neg hnst, if_pos hh] at hok
        simp at hok
    · repeat' split at hok
      all_goals first
        | simp at hok
        | exact urLoop_adj_fail args rest _ hrest r hok

theorem use_reduce_adjacent_IDS (args : URArgs) (depstr : String)
    (hsub : args.subset = none ∨ args.subset = some [])
    (hmode : ¬(args.opconvert = true ∧ args.flat = true))
    (hmm : ¬(args.matchall = true ∧ args.matchnone = true))
    (htc : ∀ tc, args.token_class = some tc →
      ∃ a, tc "__const__/empty-any-of" = .ok a)
    (hwf : ∀ tc t a, args.token_class = some tc → tc t = .ok a →
      args.matchall = false → a.evaluate_conditionals args.uselist ≠ none)
    (hadj : hasAdjacentEmptyGroup (pySplit depstr) = true) :
    ∃ msg, use_reduce args depstr = .error (.invalidDependString msg) := by
  have hpre : use_reduce args depstr = urLoop args urInit (pySplit depstr) := by
    unfold use_reduce _use_reduce_cached
    rw [if_neg hmode, if_neg hmm]
    rcases hsub with hsub | hsub <;> rw [hsub] <;> simp
  rw [hpre]
  have hinv : URInv args urInit := by
    constructor
    · intro _ lvl hmem
      simp [urInit] at hmem
      subst hmem
      rfl
    · intro _ _
      refine ⟨?_, ?_⟩
      · intro lvl hmem
        simp [urInit] at hmem
        subst hmem
        rfl
      · intro _ top restk hstk
        simp [urInit] at hstk
        rw [← hstk.1]
        rfl
  rcases urLoop_shape args htc hwf (pySplit depstr) urInit hinv with
    ⟨r, hr⟩ | ⟨msg, hm⟩
  · exact absurd hr (urLoop_adj_fail args (pySplit depstr) urInit hadj r)
  · exact ⟨msg, hm⟩

theorem evalcond_conditional_none {ud d : UseDep} {u : List String}
    (he : ud.evaluate_conditionals u = some d) : d.conditional = none := by
  unfold UseDep.evaluate_conditionals at he
  cases hf : ud.tokens.foldlM (evalCondStep u) (ud.enabled, ud.disabled, []) with
  | none => rw [hf] at he; simp at he
  | some r =>
    rw [hf] at he
    simp at he
    rw [← he]

theorem matchFromList_rel_reduce (vcmp : String → String → Option Int)
    (cat pk verv : String) (rev : Option String) (cands : List Pkg)
    (hv : verv.isEmpty = false) (op : Oper)
    (hrel : op = .gt ∨ op = .ge ∨ op = .lt ∨ op = .le) :
    matchFromList vcmp
        { op := some op, cat := cat, pkg := pk, ver := some verv,
          rev := rev } cands
      = .ok (cands.filter (fun x => decide (x.cp = cat ++ "/" ++ pk) &&
          match vcmp x.version (verv ++ revSuffix rev) with
          | none => false
          | some r => relOk op r)) := by
  rcases hrel with rfl | rfl | rfl | rfl <;> cases cands <;>
    simp [matchFromList, hv, postFilters, slotFilter, useFilter, repoFilter,
      Atom.unevaluatedUse, opDispatch, Atom.cp, Atom.versionStr]

theorem matchFromList_eq_reduce (vcmp : String → String → Option Int)
    (cat pk verv : String) (rev : Option String) (cands : List Pkg)
    (hv : verv.isEmpty = false) :
    matchFromList vcmp
        { op := some .eq, cat := cat, pkg := pk, ver := some verv,
          rev := rev } cands
      = .ok (cands.filter (fun x =>
          (decide (x.cat = cat) && decide (x.pkg = pk)) &&
          match vcmp x.version (verv ++ revSuffix rev) with
          | some r => decide (r = 0)
          | none => false)) := by
  cases cands <;>
    simp [matchFromList, hv, postFilters, slotFilter, useFilter, repoFilter,
      Atom.unevaluatedUse, opDispatch, Atom.versionStr]

theorem matchFromList_ge_mono (vcmp : String → String → Option Int)
    (cat pk verv : String) (rev : Option String) (cands : List Pkg) :
    (∀ x ∈ exGet (matchFromList vcmp
        { op := some .gt, cat := cat, pkg := pk, ver := some verv,
          rev := rev } cands),
      x ∈ exGet (matchFromList vcmp
        { op := some .ge, cat := cat, pkg := pk, ver := some verv,
          rev := rev } cands)) ∧
    (∀ x ∈ exGet (matchFromList vcmp
        { op := some .eq, cat := cat, pkg := pk, ver := some verv,
          rev := rev } cands),
      x ∈ exGet (matchFromList vcmp
        { op := some .ge, cat := cat, pkg := pk, ver := some verv,
          rev := rev } cands)) := by
  by_cases hv : verv.isEmpty
  · have hsame : ∀ op : Oper, matchFromList vcmp
        { op := some op, cat := cat, pkg := pk, ver := some verv,
          rev := rev } cands
        = matchFromList vcmp
          { op := some .ge, cat := cat, pkg := pk, ver := some verv,
            rev := rev } cands := by
      intro op
      cases cands <;>
        simp [matchFromList, hv, postFilters, slotFilter, useFilter,
          repoFilter, Atom.unevaluatedUse, Atom.cp]
    constructor <;> intro x hx
    · rwa [hsame .gt] at hx
    · rwa [hsame .eq] at hx
  · rw [Bool.not_eq_true] at hv
    constructor <;> intro x hx
    · rw [matchFromList_rel_reduce vcmp cat pk verv rev cands hv .gt
        (by simp)] at hx
      rw [matchFromList_rel_reduce vcmp cat pk verv rev cands hv .ge
        (by simp)]
      simp only [exGet, List.mem_filter] at hx ⊢
      refine ⟨hx.1, ?_⟩
      have h2 := hx.2
      cases hvc : vcmp x.version (verv ++ revSuffix rev) with
      | none => rw [hvc] at h2; simp at h2
      | some r =>
        rw [hvc] at h2
        simp [relOk] at h2 ⊢
        obtain ⟨h21, h22⟩ := h2
        exact ⟨h21, by omega⟩
    · rw [matchFromList_eq_reduce vcmp cat pk verv rev cands hv] at hx
      rw [matchFromList_rel_reduce vcmp cat pk verv rev cands hv .ge
        (by simp)]
      simp only [exGet, List.mem_filter] at hx ⊢
      refine ⟨hx.1, ?_⟩
      have h2 := hx.2
      cases hvc : vcmp x.version (verv ++ revSuffix rev) with
      | none => rw [hvc] at h2; simp at h2
      | some r =>
        rw [hvc] at h2
        simp [relOk, Pkg.cp] at h2 ⊢
        obtain ⟨⟨hcat, hpk⟩, h22⟩ := h2
        refine ⟨?_, by omega⟩
        rw [hcat, hpk]

theorem matchFromList_repo_mem (vcmp : String → String → Option Int)
    (cat pk r : String) (cands : List Pkg) (x : Pkg)
    (hr : r.isEmpty = false) :
    x ∈ exGet (matchFromList vcmp
        { cat := cat, pkg := pk, repo := some r } cands) ↔
      x ∈ exGet (matchFromList vcmp { cat := cat, pkg := pk } cands) ∧
        (x.repo = _unknown_repo ∨ x.repo = r) := by
  cases cands with
  | nil => simp [matchFromList, exGet]
  | cons c cs =>
    simp [matchFromList, exGet, postFilters, slotFilter, useFilter,
      repoFilter, Atom.unevaluatedUse, hr, List.mem_filter]
    tauto

theorem matchFromList_eqStar_mem (vcmp : String → String → Option Int)
    (cat pk verv : String) (rev : Option String) (cands : List Pkg) (x : Pkg)
    (hv : verv.isEmpty = false) :
    x ∈ exGet (matchFromList vcmp
        { op := some .eqStar, cat := cat, pkg := pk, ver := some verv,
          rev := rev } cands) ↔
      x ∈ cands ∧
        (pyStartsWith (normCpvStr x.cp x.ver x.cpvStr)
            (normCpvStr (cat ++ "/" ++ pk) verv
              (cat ++ "/" ++ pk ++ "-" ++ verv ++ revSuffix rev)) = true ∧
         globBoundaryOk
            (normCpvStr (cat ++ "/" ++ pk) verv
              (cat ++ "/" ++ pk ++ "-" ++ verv ++ revSuffix rev))
            (normCpvStr x.cp x.ver x.cpvStr) = true) := by
  cases cands with
  | nil => simp [matchFromList, exGet]
  | cons c cs =>
    simp [matchFromList, exGet, postFilters, slotFilter, useFilter,
      repoFilter, Atom.unevaluatedUse, hv, opDispatch, eqStarAccept,
      eqStarAtomCmp, Atom.cp, Atom.cpvStr, List.mem_filter]

theorem bestMatch_pair_tiebreak (vcmp : String → String → Option Int)
    (mypkg : Pkg) (a1 a2 : Atom)
    (hop1 : operatorValue a1.op = 2) (hop2 : operatorValue a2.op = 2)
    (hext1 : a1.extended_syntax = false) (hext2 : a2.extended_syntax = false)
    (hslot1 : a1.slot = none) (hslot2 : a2.slot = none)
    (hne : a1 ≠ a2)
    (hm1 : matchFromList vcmp a1 [mypkg] = .ok [mypkg])
    (hm2 : matchFromList vcmp a2 [mypkg] = .ok [mypkg])
    (hd1 : a1.cpvStr ≠ mypkg.cpvStr) (hd2 : a1.cpvStr ≠ a2.cpvStr)
    (hd3 : a2.cpvStr ≠ mypkg.cpvStr) :
    best_match_to_list vcmp mypkg [a1, a2]
        = .ok (some (bestMatchTieBreak vcmp a1 a2 mypkg)) ∧
    (bestMatchTieBreak vcmp a1 a2 mypkg = a2 ↔
      (((tieSorted vcmp a1 a2 mypkg).head? = some CpvTag.mypkg ||
        (tieSorted vcmp a1 a2 mypkg).getLast? = some CpvTag.mypkg) &&
       (tieSorted vcmp a1 a2 mypkg).get? 1 = some CpvTag.chal) = true) ∧
    ((tieSorted vcmp a1 a2 mypkg).get? 1 = some CpvTag.mypkg →
      bestMatchTieBreak vcmp a1 a2 mypkg = a1) := by
  simp only [tieSorted]
  have hne2 : a2 ≠ a1 := fun h => hne h.symm
  have hkey : bestMatchTieBreak vcmp a1 a2 mypkg =
      (if (((stableSortCpv vcmp [(CpvTag.best, a1.versionStr),
              (CpvTag.mypkg, mypkg.version), (CpvTag.chal, a2.versionStr)]).map
                Prod.fst).head? = some CpvTag.mypkg ||
          ((stableSortCpv vcmp [(CpvTag.best, a1.versionStr),
              (CpvTag.mypkg, mypkg.version), (CpvTag.chal, a2.versionStr)]).map
                Prod.fst).getLast? = some CpvTag.mypkg) &&
         ((stableSortCpv vcmp [(CpvTag.best, a1.versionStr),
              (CpvTag.mypkg, mypkg.version), (CpvTag.chal, a2.versionStr)]).map
                Prod.fst).get? 1 = some CpvTag.chal then a2 else a1) := by
    rw [bestMatchTieBreak, if_neg, if_neg]
    · exact hd3
    · simp [hd1, hd2]
  refine ⟨?_, ?_, ?_⟩
  · have hmem : a2 ∉ ([a1] : List Atom) := by simp [hne2]
    simp [best_match_to_list, match_to_list, hm1, hm2, hmem, hne2, bestStep,
      hext1, hext2, hslot1, hslot2, hop1, hop2, pure, Except.pure, bind,
      Except.bind]
  · rw [hkey]
    by_cases hb : ((((stableSortCpv vcmp [(CpvTag.best, a1.versionStr),
          (CpvTag.mypkg, mypkg.version), (CpvTag.chal, a2.versionStr)]).map
            Prod.fst).head? = some CpvTag.mypkg ||
        ((stableSortCpv vcmp [(CpvTag.best, a1.versionStr),
            (CpvTag.mypkg, mypkg.version), (CpvTag.chal, a2.versionStr)]).map
              Prod.fst).getLast? = some CpvTag.mypkg) &&
       ((stableSortCpv vcmp [(CpvTag.best, a1.versionStr),
            (CpvTag.mypkg, mypkg.version), (CpvTag.chal, a2.versionStr)]).map
              Prod.fst).get? 1 = some CpvTag.chal) = true
    · rw [if_pos hb]
      simp [hb]
    · rw [if_neg hb]
      simp [hb]
      exact hne
  · intro hmid
    rw [hkey, if_neg]
    simp only [hmid]
    simp

/-- C1: for the `=*` glob operator, `match_from_list` normalizes both
cpv strings (left-stripping leading zeros of the first numeric version
component, keeping any revision suffix) and accepts a candidate iff the
candidate's normalized cpv starts with the atom's normalized cpv and
the match ends on a component boundary (next character absent, one of
`.`, `_`, `-`, or of different digit-ness than the last matched
character); in particular `=cat/pkg-1*` against `cat/pkg-10` and
`cat/pkg-1.2` matches only `cat/pkg-1.2`. -/
theorem c1_eqstar_glob_boundary :
    (∀ (vcmp : String → String → Option Int) (cat pk verv : String)
        (rev : Option String) (cands : List Pkg) (x : Pkg),
      verv.isEmpty = false →
      (x ∈ exGet (matchFromList vcmp
          { op := some .eqStar, cat := cat, pkg := pk, ver := some verv,
            rev := rev } cands) ↔
        x ∈ cands ∧
          (pyStartsWith (normCpvStr x.cp x.ver x.cpvStr)
              (normCpvStr (cat ++ "/" ++ pk) verv
                (cat ++ "/" ++ pk ++ "-" ++ verv ++ revSuffix rev)) = true ∧
           globBoundaryOk
              (normCpvStr (cat ++ "/" ++ pk) verv
                (cat ++ "/" ++ pk ++ "-" ++ verv ++ revSuffix rev))
              (normCpvStr x.cp x.ver x.cpvStr) = true))) ∧
    matchFromList vcmpNat
        { op := some .eqStar, cat := "cat", pkg := "pkg", ver := some "1" }
        [{ cat := "cat", pkg := "pkg", ver := "10" },
         { cat := "cat", pkg := "pkg", ver := "1.2" }]
      = .ok [{ cat := "cat", pkg := "pkg", ver := "1.2" }] :=
  ⟨fun vcmp cat pk verv rev cands x hv =>
    matchFromList_eqStar_mem vcmp cat pk verv rev cands x hv, by decide⟩

/-- C2 (counterexample): a literally empty `^^` group has zero
satisfied children, yet `is_satisfied` reports it satisfied whenever
the EAPI treats empty groups as true, and so does the verdict of
`check_required_use` on `"^^ ( )"` — against the claimed
"satisfied iff exactly one child is satisfied". -/
theorem c2_xor_counterexample :
    cruIsSatisfied attrsLenient "^^" [] = true ∧
    ([] : List SItem).count (SItem.b true) ≠ 1 ∧
    (check_required_use attrsLenient (fun _ => true) "^^ ( )" []).map
        RNode.satisfiedOf = .ok true := by decide

/-- C2 (amended): for a nonempty argument list — or under any EAPI
whose `empty_groups_always_true` is off — a `^^` group is satisfied iff
exactly one child is satisfied; and the `"^^ ( a b )"` scenario behaves
as claimed: satisfied under USE `{a}`, unsatisfied under `{a, b}` with
the explanation rendering both children verbatim. -/
theorem c2_xor_exactly_one_amended :
    (∀ (attrs : EapiAttrs) (l : List SItem),
      l ≠ [] ∨ attrs.empty_groups_always_true = false →
      (cruIsSatisfied attrs "^^" l = true ↔
        l.count (SItem.b true) = 1)) ∧
    (check_required_use attrsLenient (fun _ => true) "^^ ( a b )"
        ["a"]).map RNode.satisfiedOf = .ok true ∧
    (check_required_use attrsLenient (fun _ => true) "^^ ( a b )"
        ["a", "b"]).map RNode.satisfiedOf = .ok false ∧
    (check_required_use attrsLenient (fun _ => true) "^^ ( a b )"
        ["a", "b"]).map RNode.tounicode = .ok "^^ ( a b )" := by
  refine ⟨?_, by decide, by decide, by decide⟩
  intro attrs l h
  have hcond : (l.isEmpty && attrs.empty_groups_always_true) = false := by
    rcases h with h | h
    · cases l with
      | nil => exact absurd rfl h
      | cons a t => rfl
    · rw [h, Bool.and_false]
  unfold cruIsSatisfied
  rw [hcond]
  simp

/-- C3: over any candidate list, the `>=` match result contains every
`>` match and every `=` match for the same `cp-v`; concretely over
`{cat/pkg-1, cat/pkg-2}` the three results are `[2]`, `[1, 2]` and
`[1]`. -/
theorem c3_relational_superset :
    (∀ (vcmp : String → String → Option Int) (cat pk verv : String)
        (rev : Option String) (cands : List Pkg),
      (∀ x ∈ exGet (matchFromList vcmp
          { op := some .gt, cat := cat, pkg := pk, ver := some verv,
            rev := rev } cands),
        x ∈ exGet (matchFromList vcmp
          { op := some .ge, cat := cat, pkg := pk, ver := some verv,
            rev := rev } cands)) ∧
      (∀ x ∈ exGet (matchFromList vcmp
          { op := some .eq, cat := cat, pkg := pk, ver := some verv,
            rev := rev } cands),
        x ∈ exGet (matchFromList vcmp
          { op := some .ge, cat := cat, pkg := pk, ver := some verv,
            rev := rev } cands))) ∧
    matchFromList vcmpNat
        { op := some .gt, cat := "cat", pkg := "pkg", ver := some "1" }
        [pV1, pV2] = .ok [pV2] ∧
    matchFromList vcmpNat
        { op := some .ge, cat := "cat", pkg := "pkg", ver := some "1" }
        [pV1, pV2] = .ok [pV1, pV2] ∧
    matchFromList vcmpNat
        { op := some .eq, cat := "cat", pkg := "pkg", ver := some "1" }
        [pV1, pV2] = .ok [pV1] :=
  ⟨fun vcmp cat pk verv rev cands =>
    matchFromList_ge_mono vcmp cat pk verv rev cands,
   by decide, by decide, by decide⟩

/-- C4: when two relational-operator atoms tie at rank 2 in
`best_match_to_list`, the three cpv strings (current best, queried
package, challenger) are sorted under the version order; the challenger
replaces the best exactly when the queried version lands at an end of
the sorted triple with the challenger in the middle, and when the
queried version lands strictly in the middle the current best is kept.
Concretely for `cat/pkg-2`: `[>=1, <=3]` keeps `>=1`; `[<=9, <=8]`
replaces to `<=8`; `[<=8, <=9]` keeps `<=8`. -/
theorem c4_relational_tiebreak :
    (∀ (vcmp : String → String → Option Int) (mypkg : Pkg) (a1 a2 : Atom),
      operatorValue a1.op = 2 → operatorValue a2.op = 2 →
      a1.extended_syntax = false → a2.extended_syntax = false →
      a1.slot = none → a2.slot = none → a1 ≠ a2 →
      matchFromList vcmp a1 [mypkg] = .ok [mypkg] →
      matchFromList vcmp a2 [mypkg] = .ok [mypkg] →
      a1.cpvStr ≠ mypkg.cpvStr → a1.cpvStr ≠ a2.cpvStr →
      a2.cpvStr ≠ mypkg.cpvStr →
      best_match_to_list vcmp mypkg [a1, a2]
          = .ok (some (bestMatchTieBreak vcmp a1 a2 mypkg)) ∧
      (bestMatchTieBreak vcmp a1 a2 mypkg = a2 ↔
        (((tieSorted vcmp a1 a2 mypkg).head? = some CpvTag.mypkg ||
          (tieSorted vcmp a1 a2 mypkg).getLast? = some CpvTag.mypkg) &&
         (tieSorted vcmp a1 a2 mypkg).get? 1 = some CpvTag.chal) = true) ∧
      ((tieSorted vcmp a1 a2 mypkg).get? 1 = some CpvTag.mypkg →
        bestMatchTieBreak vcmp a1 a2 mypkg = a1)) ∧
    best_match_to_list vcmpNat myp [aGe1, aLe3] = .ok (some aGe1) ∧
    best_match_to_list vcmpNat myp [aLe9, aLe8] = .ok (some aLe8) ∧
    best_match_to_list vcmpNat myp [aLe8, aLe9] = .ok (some aLe8) :=
  ⟨fun vcmp mypkg a1 a2 h1 h2 h3 h4 h5 h6 h7 h8 h9 h10 h11 h12 =>
    bestMatch_pair_tiebreak vcmp mypkg a1 a2 h1 h2 h3 h4 h5 h6 h7 h8 h9
      h10 h11 h12,
   by decide, by decide, by decide⟩

/-- C5 (counterexample): the memoized `use_reduce` returns
`result[:]` — a shallow copy.  In the two-call scenario on
`"|| ( a b )"`, the first call returns the list at address 2 whose
group element is a reference to the cached sublist at address 0; after
the caller appends `"evil"` to that nested sublist, the second call
with the same arguments returns a copy whose nested sublist (still
address 0) contains the mutation — so mutating the returned structure's
nested sublists does corrupt what later calls receive. -/
theorem c5_nested_alias_counterexample :
    use_reduce_call c5State0 c5Key = .ok (2, c5State1) ∧
    c5State1.store.read 2 = [.tok "||", .ref 0] ∧
    use_reduce_call c5StateNestedMut c5Key =
      .ok (3, { cache := [(c5Key, 1)],
                store := ⟨[[.tok "a", .tok "b", .tok "evil"],
                           [.tok "||", .ref 0],
                           [.tok "||", .ref 0],
                           [.tok "||", .ref 0]]⟩ }) ∧
    Store.read ⟨[[.tok "a", .tok "b", .tok "evil"],
                 [.tok "||", .ref 0],
                 [.tok "||", .ref 0],
                 [.tok "||", .ref 0]]⟩ 0 ≠ c5State1.store.read 0 := by decide

/-- C5 (amended): `use_reduce` is memoized on the full argument tuple
and each call returns a fresh shallow copy of the cached top-level
list: mutating the returned top-level list itself does not change what
a later identical call receives (the second call's copy equals the
pristine cached list, not the mutated one), while nested sublists stay
shared with the cache. -/
theorem c5_cache_copy_amended :
    use_reduce_call c5State0 c5Key = .ok (2, c5State1) ∧
    use_reduce_call c5StateTopMut c5Key =
      .ok (3, { cache := [(c5Key, 1)],
                store := ⟨[[.tok "a", .tok "b"],
                           [.tok "||", .ref 0],
                           [.tok "||", .ref 0, .tok "evil"],
                           [.tok "||", .ref 0]]⟩ }) ∧
    Store.read ⟨[[.tok "a", .tok "b"],
                 [.tok "||", .ref 0],
                 [.tok "||", .ref 0, .tok "evil"],
                 [.tok "||", .ref 0]]⟩ 3 = c5State1.store.read 1 ∧
    Store.read ⟨[[.tok "a", .tok "b"],
                 [.tok "||", .ref 0],
                 [.tok "||", .ref 0, .tok "evil"],
                 [.tok "||", .ref 0]]⟩ 3 ≠
      Store.read ⟨[[.tok "a", .tok "b"],
                   [.tok "||", .ref 0],
                   [.tok "||", .ref 0, .tok "evil"],
                   [.tok "||", .ref 0]]⟩ 2 := by decide

/-- C6: `evaluate_conditionals` is idempotent for a fixed USE set: for
every atom and enabled-flag list, evaluating the evaluated atom again
gives the same result (with `Option.bind` threading the
malformed-token failure). -/
theorem c6_evaluate_conditionals_idempotent :
    ∀ (a : Atom) (u : List String),
      (a.evaluate_conditionals u).bind
          (fun b => b.evaluate_conditionals u) =
        a.evaluate_conditionals u := by
  intro a u
  cases ha : a.use with
  | none => simp [Atom.evaluate_conditionals, ha]
  | some ud =>
    by_cases hc : (ud.truthy && ud.conditional.isSome) = true
    · cases he : ud.evaluate_conditionals u with
      | none => simp [Atom.evaluate_conditionals, ha, hc, he]
      | some d =>
        have hd : d.conditional = none := evalcond_conditional_none he
        simp [Atom.evaluate_conditionals, ha, hc, he, hd]
    · simp [Atom.evaluate_conditionals, ha, hc]
      intro h1 h2
      simp [h1, h2] at hc

/-- C7: `check_required_use "|| ( )"` yields the verdict given by the
EAPI's `empty_groups_always_true` attribute — satisfied for every EAPI
with the attribute on, not satisfied for every EAPI with it off —
regardless of the IUSE predicate and the enabled USE set. -/
theorem c7_empty_anyof_group :
    (∀ (attrs : EapiAttrs) (im : String → Bool) (use : List String),
      (check_required_use attrs im "|| ( )" use).map RNode.satisfiedOf =
        .ok attrs.empty_groups_always_true) ∧
    (check_required_use attrsLenient (fun _ => true) "|| ( )" []).map
        RNode.satisfiedOf = .ok true ∧
    (check_required_use attrsStrict (fun _ => true) "|| ( )" []).map
        RNode.satisfiedOf = .ok false := by
  refine ⟨?_, by decide, by decide⟩
  intro attrs im use
  cases attrs with
  | mk a b c d => cases a <;> cases b <;> cases c <;> cases d <;> rfl

/-- C8: with a repository on the atom, the repo filter keeps a
candidate iff it survives the same match without the repository and its
repo equals the atom's or is the unknown marker; concretely
`cat/pkg::gentoo` over repos `gentoo`, `other`, unknown keeps the
`gentoo` and unknown candidates. -/
theorem c8_repo_filter :
    (∀ (vcmp : String → String → Option Int) (cat pk r : String)
        (cands : List Pkg) (x : Pkg),
      r.isEmpty = false →
      (x ∈ exGet (matchFromList vcmp
          { cat := cat, pkg := pk, repo := some r } cands) ↔
        x ∈ exGet (matchFromList vcmp { cat := cat, pkg := pk } cands) ∧
          (x.repo = _unknown_repo ∨ x.repo = r))) ∧
    matchFromList vcmpNat
        { cat := "cat", pkg := "pkg", repo := some "gentoo" }
        [pRg, pRo, pRu] = .ok [pRg, pRu] :=
  ⟨fun vcmp cat pk r cands x hr =>
    matchFromList_repo_mem vcmp cat pk r cands x hr, by decide⟩

/-- C9 (counterexample): the claim fails in `subset` mode — with a
nonempty `subset`, the `paren_reduce`/`select_subset` preprocessing
silently swallows a literally empty group, and `use_reduce` on
`"( )"` succeeds with the empty structure instead of raising
`InvalidDependString`. -/
theorem c9_subset_empty_group_counterexample :
    hasAdjacentEmptyGroup (pySplit "( )") = true ∧
    use_reduce { urA0 with subset := some ["x"] } "( )" = .ok .nil := by
  constructor
  · decide
  · simp [use_reduce, _use_reduce_cached, paren_reduce, parenReduceLoop,
      pySplit, pySplitAux, parenReduceClose, selectSubset, paren_enclose,
      parenEncloseParts, urLoop, urInit, urA0, attrsLenient,
      DepNodes.isEmpty, DepNodes.appendAll, DepNodes.getLastOpt,
      DepNodes.headOpt, DepNodes.snoc, DepNodes.length, endsInAnyOf,
      isOrTok, lastIsQmark, urPushTop]

/-- C9 (amended): with `subset` unset (or empty), for every EAPI and
every non-conflicting mode combination (`opconvert`/`flat` and
`matchall`/`matchnone` not both set), a token stream containing `"("`
immediately followed by `")"` makes `use_reduce` raise
`InvalidDependString` — provided any supplied `token_class` accepts the
`__const__/empty-any-of` marker and produces atoms whose conditionals
evaluate; concretely `"( )"` fails the same way under lenient and
strict EAPIs and under `flat` and `opconvert`. -/
theorem c9_adjacent_empty_group_amended :
    (∀ (args : URArgs) (depstr : String),
      args.subset = none ∨ args.subset = some [] →
      ¬(args.opconvert = true ∧ args.flat = true) →
      ¬(args.matchall = true ∧ args.matchnone = true) →
      (∀ tc, args.token_class = some tc →
        ∃ a, tc "__const__/empty-any-of" = .ok a) →
      (∀ tc t a, args.token_class = some tc → tc t = .ok a →
        args.matchall = false →
        a.evaluate_conditionals args.uselist ≠ none) →
      hasAdjacentEmptyGroup (pySplit depstr) = true →
      ∃ msg, use_reduce args depstr =
        .error (.invalidDependString msg)) ∧
    use_reduce urA0 "( )" =
      .error (.invalidDependString
        "expected: dependency string, got: )") ∧
    use_reduce { urA0 with attrs := attrsStrict } "a ( ) b" =
      .error (.invalidDependString
        "expected: dependency string, got: )") ∧
    use_reduce { urA0 with flat := true } "( )" =
      .error (.invalidDependString
        "expected: dependency string, got: )") ∧
    use_reduce { urA0 with opconvert := true } "( )" =
      .error (.invalidDependString
        "expected: dependency string, got: )") :=
  ⟨fun args depstr h1 h2 h3 h4 h5 h6 =>
    use_reduce_adjacent_IDS args depstr h1 h2 h3 h4 h5 h6,
   by decide, by decide, by decide, by decide⟩

/-- C10: `match_from_list` on an empty candidate list returns the empty
list without error for every first argument — the empty-candidate check
runs before blocker stripping and atom parsing, so even a parser that
rejects every string never raises. -/
theorem c10_empty_candidates :
    (∀ (vcmp : String → String → Option Int)
        (parseAtom : String → Except MatchErr Atom) (mydep : String),
      match_from_list_str vcmp parseAtom mydep [] = .ok []) ∧
    (∀ (vcmp : String → String → Option Int) (a : Atom),
      matchFromList vcmp a [] = .ok []) :=
  ⟨fun _ _ _ => rfl, fun _ _ => rfl⟩

end PortageDep
